import Mathlib

/-!
Verification of the crowd-organ gesture-classification engine.

This file gives a shallow embedding, in Lean 4, of the core of the
`crowd-organ` repository: the bounded per-voice sample store
(`GestureHistory.cpp`), the per-voice gesture classifier
(`VoiceGestureDetector`), the per-camera 4x4 grid classifier
(`ZoneGestureDetector.cpp`), and the room-wide classifier
(`GlobalGestureDetector`), together with theorems settling the frozen
claims about them.

Modelling conventions:
* C++ `float` values are modelled as exact rationals (`ℚ`).  No claim under
  verification depends on rounding of binary floating point; every numeric
  scenario in the spec is stated with short decimal constants.
* `uint64_t` millisecond timestamps are modelled as `ℕ`.  The code's
  timestamps are milliseconds since boot supplied by a monotonic caller
  clock, so the wrap-around of 64-bit arithmetic is never reached; the
  guarded subtractions in the source (`now > w ? now - w : 0`) are mirrored
  literally.
* `std::unordered_map` with `operator[]`-style default construction is
  modelled as a total function from keys to values, with the map's
  default-constructed entry as the value at absent keys; `erase` writes the
  default back.
* `glm::length` (a real square root, irrational in general) is passed in as
  an explicit length function `len3`: every universally quantified theorem
  about the voice detector holds for an arbitrary `len3`, and concrete
  scenarios instantiate it with `euclidLen`, which is exact on every input
  the scenarios use.
-/

namespace CrowdOrgan

/-- Embeds `ofClamp(value, 0, 1)` from openFrameworks, as used by the
`clamp01` helper that all three detectors define:
`value < min ? min : value > max ? max : value`. -/
def clamp01 (value : ℚ) : ℚ :=
  if value < 0 then 0 else if value > 1 then 1 else value

/-- 3-component vector of rationals, embedding `glm::vec3`. -/
structure Vec3 where
  x : ℚ
  y : ℚ
  z : ℚ
deriving DecidableEq, Repr

def Vec3.zero : Vec3 := ⟨0, 0, 0⟩

def Vec3.sub (a b : Vec3) : Vec3 := ⟨a.x - b.x, a.y - b.y, a.z - b.z⟩

def Vec3.divQ (a : Vec3) (q : ℚ) : Vec3 := ⟨a.x / q, a.y / q, a.z / q⟩

/-- Floor square root by bounded search (structural recursion only, so
concrete scenario runs reduce inside the kernel). -/
def natSqrtFloor (n : Nat) : Nat :=
  ((List.range (n + 1)).filter (fun k => decide (k * k ≤ n))).getLastD 0

/-- Rational square root: exact whenever the true square root of `q` is
rational (numerator and denominator of the reduced fraction are perfect
squares), `0` otherwise.  Used only through `euclidLen` to evaluate concrete
scenarios in which every length is rational; universally quantified theorems
take the length function as a parameter instead. -/
def ratSqrt (q : ℚ) : ℚ :=
  if 0 ≤ q ∧ natSqrtFloor q.num.toNat * natSqrtFloor q.num.toNat = q.num.toNat
       ∧ natSqrtFloor q.den * natSqrtFloor q.den = q.den
  then (natSqrtFloor q.num.toNat : ℚ) / (natSqrtFloor q.den : ℚ)
  else 0

/-- Embeds `glm::length` on the inputs of the concrete scenarios (where the
Euclidean norm is rational, `ratSqrt` computes it exactly). -/
def euclidLen (v : Vec3) : ℚ := ratSqrt (v.x * v.x + v.y * v.y + v.z * v.z)

/-! ## GestureHistory

Embedding of `GestureHistory.cpp`: one `std::deque<Sample>` per voice id
(front = oldest), a shared capacity, velocity derivation on append. -/

/-- `GestureHistory::Sample`. -/
structure Sample where
  timestamp : Nat
  position : Vec3
  velocity : Vec3
  motion : ℚ
  energy : ℚ
deriving DecidableEq, Repr

instance : Inhabited Sample := ⟨⟨0, Vec3.zero, Vec3.zero, 0, 0⟩⟩

/-- The `while (history.size() > capacity) history.pop_front();` loop shared
by `setCapacity` and `addSample`. -/
def trimFront (cap : Nat) : List Sample → List Sample
  | [] => []
  | s :: rest => if (s :: rest).length > cap then trimFront cap rest else s :: rest

/-- The `GestureHistory` class state: per-voice buffers plus the shared
capacity (default 45 frames, from the header's member initializer). -/
structure GestureHistory where
  histories : Int → List Sample
  capacity : Nat

def GestureHistory.init : GestureHistory := ⟨fun _ => [], 45⟩

/-- `GestureHistory::setCapacity`: clamp to at least one frame, then trim
every existing buffer to the new bound. -/
def GestureHistory.setCapacity (g : GestureHistory) (capacityFrames : Nat) :
    GestureHistory :=
  let cap := max 1 capacityFrames
  ⟨fun v => trimFront cap (g.histories v), cap⟩

/-- `GestureHistory::addSample`: derive velocity from the previous sample
(zero if none, or if the timestamp did not advance), append, evict oldest
while over capacity. -/
def GestureHistory.addSample (g : GestureHistory) (voiceId : Int)
    (position : Vec3) (motion energy : ℚ) (timestampMs : Nat) : GestureHistory :=
  let history := g.histories voiceId
  let velocity :=
    match history.getLast? with
    | none => Vec3.zero
    | some prev =>
      let dt : ℚ :=
        ((if timestampMs > prev.timestamp then timestampMs - prev.timestamp else 0 : Nat) : ℚ)
          / 1000
      if dt > 0 then (position.sub prev.position).divQ dt else Vec3.zero
  let sample : Sample := ⟨timestampMs, position, velocity, motion, energy⟩
  let history := trimFront g.capacity (history ++ [sample])
  ⟨fun v => if v = voiceId then history else g.histories v, g.capacity⟩

/-- `GestureHistory::removeVoice`: drop the buffer (absent = empty). -/
def GestureHistory.removeVoice (g : GestureHistory) (voiceId : Int) :
    GestureHistory :=
  ⟨fun v => if v = voiceId then [] else g.histories v, g.capacity⟩

/-- One call against the `GestureHistory` public mutating interface. -/
inductive HistoryOp where
  | setCapacity : Nat → HistoryOp
  | addSample : Int → Vec3 → ℚ → ℚ → Nat → HistoryOp
  | removeVoice : Int → HistoryOp

def GestureHistory.applyOp (g : GestureHistory) : HistoryOp → GestureHistory
  | .setCapacity n => g.setCapacity n
  | .addSample v p m e t => g.addSample v p m e t
  | .removeVoice v => g.removeVoice v

/-- A fresh `GestureHistory` driven through a sequence of calls. -/
def GestureHistory.runOps (ops : List HistoryOp) : GestureHistory :=
  ops.foldl GestureHistory.applyOp GestureHistory.init

/-! ## Cooldown ledger

`VoiceGestureDetector` and `ZoneGestureDetector` each own an
`unordered_map<int, unordered_map<string, uint64_t>> lastTriggerTimes`,
consulted by `canTrigger` and written by `rememberTrigger`.  An absent owner
or type behaves exactly like an absent inner key, so the two-level map is
modelled as one total function to `Option Nat`. -/

def Ledger := Int → String → Option Nat

def emptyLedger : Ledger := fun _ _ => none

/-- `canTrigger`: absent key fires freely; otherwise the cooldown must have
elapsed (`timestamp >= last + cooldownMs`). -/
def canTrigger (ledger : Ledger) (ownerId : Int) (type : String)
    (timestamp cooldownMs : Nat) : Bool :=
  match ledger ownerId type with
  | none => true
  | some last => decide (timestamp ≥ last + cooldownMs)

/-- `rememberTrigger`: record the trigger time under (owner, type). -/
def rememberTrigger (ledger : Ledger) (ownerId : Int) (type : String)
    (timestamp : Nat) : Ledger :=
  fun o t => if o = ownerId ∧ t = type then some timestamp else ledger o t

/-- One guarded emission: the body of each `if (canTrigger(...)) { ...
outEvents.push_back(event); rememberTrigger(...); }` block, with the event
value already built. -/
structure FireCand (E : Type) where
  type : String
  cooldownMs : Nat
  event : E

def fireStep {E : Type} (ownerId : Int) (now : Nat)
    (st : Ledger × List E) (c : FireCand E) : Ledger × List E :=
  if canTrigger st.1 ownerId c.type now c.cooldownMs then
    (rememberTrigger st.1 ownerId c.type now, st.2 ++ [c.event])
  else st

/-- A sequence of guarded emissions, in source order. -/
def fireAll {E : Type} (ownerId : Int) (now : Nat) (ledger : Ledger)
    (events : List E) (cands : List (FireCand E)) : Ledger × List E :=
  cands.foldl (fireStep ownerId now) (ledger, events)

/-! ## VoiceGestureDetector -/

/-- `VoiceGestureDetector::Config`, defaults from the header. -/
structure VoiceConfig where
  raiseDeltaY : ℚ := 0.18
  lowerDeltaY : ℚ := 0.18
  swipeDeltaX : ℚ := 0.25
  swipeOrthogonality : ℚ := 1.6
  raiseHorizontalLimit : ℚ := 0.12
  swipeVerticalLimit : ℚ := 0.18
  shakeRadius : ℚ := 0.08
  shakeMinSignFlips : Int := 4
  shakeMinMotion : ℚ := 0.08
  burstSpeedThreshold : ℚ := 1.5
  burstMaxSpeed : ℚ := 3.5
  holdMotionThreshold : ℚ := 0.05
  holdDurationMs : Nat := 1200
  minWindowMs : Nat := 400
  maxWindowMs : Nat := 1200
  gestureCooldownMs : Nat := 900
  burstCooldownMs : Nat := 600
  holdCooldownMs : Nat := 1800

def VoiceConfig.default : VoiceConfig := {}

/-- `VoiceGestureEvent` from `GestureEvents.h`. -/
structure VoiceGestureEvent where
  voiceId : Int
  type : String
  strength : ℚ
  extra : ℚ
deriving DecidableEq, Repr

/-- `now` of an `updateVoice` call: the latest sample's timestamp. -/
def voiceNow (samples : List Sample) : Nat :=
  (samples.getLastD default).timestamp

/-- The backward scan for the first sample inside the max window
(`startIdx` stays 0 when no sample qualifies, as in the source loop). -/
def voiceStartIdx (cfg : VoiceConfig) (samples : List Sample) : Nat :=
  let now := voiceNow samples
  let minTimestamp := if now > cfg.maxWindowMs then now - cfg.maxWindowMs else 0
  (samples.findIdx? (fun s => decide (s.timestamp ≥ minTimestamp))).getD 0

/-- `windowDuration = now - startSample.timestamp`. -/
def voiceWindowDuration (cfg : VoiceConfig) (samples : List Sample) : Nat :=
  voiceNow samples - (samples.getD (voiceStartIdx cfg samples) default).timestamp

/-- Accumulator of the sign-flip scan (`signFlips`, `hasPrevX/Y`,
`prevSignX/Y`). -/
structure FlipState where
  signFlips : Int
  hasPrevX : Bool
  hasPrevY : Bool
  prevSignX : ℚ
  prevSignY : ℚ

/-- One iteration of the sign-flip loop body (run for every window sample
after the first); the dead band is `shakeMinMotion * 0.25`. -/
def flipStep (shakeMinMotion : ℚ) (st : FlipState) (s : Sample) : FlipState :=
  let st :=
    if |s.velocity.x| > shakeMinMotion * 0.25 then
      let sign : ℚ := if s.velocity.x ≥ 0 then 1 else -1
      { st with
        signFlips := if st.hasPrevX ∧ sign ≠ st.prevSignX then st.signFlips + 1 else st.signFlips
        prevSignX := sign
        hasPrevX := true }
    else st
  if |s.velocity.y| > shakeMinMotion * 0.25 then
    let sign : ℚ := if s.velocity.y ≥ 0 then 1 else -1
    { st with
      signFlips := if st.hasPrevY ∧ sign ≠ st.prevSignY then st.signFlips + 1 else st.signFlips
      prevSignY := sign
      hasPrevY := true }
  else st

/-- The six rule blocks of `VoiceGestureDetector::updateVoice`, in
declaration order, as conditional candidates: the windowed statistics
(extrema, average motion, max speed, sign flips, displacement, hold span)
feed each rule's condition and strength exactly as the source computes
them.  `len3` stands for `glm::length`. -/
def voiceCands (len3 : Vec3 → ℚ) (cfg : VoiceConfig) (voiceId : Int)
    (samples : List Sample) : List (FireCand VoiceGestureEvent) :=
  let latest := samples.getLastD default
  let now := latest.timestamp
  let startIdx := voiceStartIdx cfg samples
  let startSample := samples.getD startIdx default
  let window := samples.drop startIdx
  let minX := window.foldl (fun a s => min a s.position.x) startSample.position.x
  let maxX := window.foldl (fun a s => max a s.position.x) startSample.position.x
  let minY := window.foldl (fun a s => min a s.position.y) startSample.position.y
  let maxY := window.foldl (fun a s => max a s.position.y) startSample.position.y
  let cumulativeMotion := window.foldl (fun a s => a + s.motion) 0
  let maxSpeed := window.foldl (fun a s => max a (len3 s.velocity)) 0
  let flips := (window.drop 1).foldl (flipStep cfg.shakeMinMotion)
    ⟨0, false, false, 0, 0⟩
  let signFlips := flips.signFlips
  let avgMotion := cumulativeMotion / ((window.length : ℚ))
  let displacement := latest.position.sub startSample.position
  let deltaX := displacement.x
  let deltaY := displacement.y
  let horizontalSpan := maxX - minX
  let verticalSpan := maxY - minY
  let radius := max horizontalSpan verticalSpan
  let absDeltaX := |deltaX|
  let absDeltaY := |deltaY|
  let swipeType := if deltaX < 0 then "swipe_left" else "swipe_right"
  let holdStart :=
    match window.reverse.find? (fun s => decide (s.motion > cfg.holdMotionThreshold)) with
    | some s => s.timestamp
    | none => startSample.timestamp
  let holdDuration := now - holdStart
  (if deltaY ≤ -cfg.raiseDeltaY ∧ horizontalSpan ≤ cfg.raiseHorizontalLimit then
    [⟨"raise", cfg.gestureCooldownMs,
      ⟨voiceId, "raise", clamp01 ((-deltaY) / cfg.raiseDeltaY), latest.position.y⟩⟩]
   else [])
  ++ (if deltaY ≥ cfg.lowerDeltaY ∧ horizontalSpan ≤ cfg.raiseHorizontalLimit then
    [⟨"lower", cfg.gestureCooldownMs,
      ⟨voiceId, "lower", clamp01 (deltaY / cfg.lowerDeltaY), latest.position.y⟩⟩]
   else [])
  ++ (if absDeltaX ≥ cfg.swipeDeltaX ∧ absDeltaX > absDeltaY * cfg.swipeOrthogonality
        ∧ absDeltaY ≤ cfg.swipeVerticalLimit then
    [⟨swipeType, cfg.gestureCooldownMs,
      ⟨voiceId, swipeType, clamp01 (absDeltaX / cfg.swipeDeltaX), 0⟩⟩]
   else [])
  ++ (if radius ≤ cfg.shakeRadius ∧ avgMotion ≥ cfg.shakeMinMotion
        ∧ signFlips ≥ cfg.shakeMinSignFlips then
    [⟨"shake", cfg.gestureCooldownMs,
      ⟨voiceId, "shake", clamp01 (avgMotion / (cfg.shakeMinMotion * 2)), 0⟩⟩]
   else [])
  ++ (if maxSpeed ≥ cfg.burstSpeedThreshold then
    [⟨"burst", cfg.burstCooldownMs,
      ⟨voiceId, "burst",
       clamp01 ((maxSpeed - cfg.burstSpeedThreshold)
         / max 0.01 (cfg.burstMaxSpeed - cfg.burstSpeedThreshold)), 0⟩⟩]
   else [])
  ++ (if avgMotion ≤ cfg.holdMotionThreshold ∧ holdDuration ≥ cfg.holdDurationMs then
    [⟨"hold", cfg.holdCooldownMs,
      ⟨voiceId, "hold", clamp01 (1 - avgMotion / max 0.01 cfg.holdMotionThreshold),
       clamp01 ((holdDuration : ℚ) / ((cfg.holdDurationMs : ℚ)))⟩⟩]
   else [])

/-- `VoiceGestureDetector::updateVoice`: the two early-out guards, then the
six rule blocks played through the `canTrigger` / `push_back` /
`rememberTrigger` pattern each block repeats. -/
def updateVoice (len3 : Vec3 → ℚ) (cfg : VoiceConfig) (ledger : Ledger)
    (voiceId : Int) (samples : List Sample) : Ledger × List VoiceGestureEvent :=
  if samples.length < 2 then (ledger, [])
  else if voiceWindowDuration cfg samples < cfg.minWindowMs then (ledger, [])
  else fireAll voiceId (voiceNow samples) ledger [] (voiceCands len3 cfg voiceId samples)

/-- The per-type cooldown the voice rules pass to `canTrigger`: `burst` uses
`burstCooldownMs`, `hold` uses `holdCooldownMs`, the four positional
gestures use `gestureCooldownMs`. -/
def voiceCooldown (cfg : VoiceConfig) (type : String) : Nat :=
  if type = "burst" then cfg.burstCooldownMs
  else if type = "hold" then cfg.holdCooldownMs
  else cfg.gestureCooldownMs

/-- One external `updateVoice` call: a voice id plus the history snapshot the
driver hands in. -/
structure VoiceCall where
  voiceId : Int
  samples : List Sample

/-- A sequence of `updateVoice` calls against one detector instance; events
are tagged with the `now` of the call that emitted them. -/
def runVoiceAux (len3 : Vec3 → ℚ) (cfg : VoiceConfig) :
    Ledger → List VoiceCall → List (Nat × VoiceGestureEvent)
  | _, [] => []
  | ledger, call :: rest =>
    let res := updateVoice len3 cfg ledger call.voiceId call.samples
    res.2.map (fun e => (voiceNow call.samples, e)) ++ runVoiceAux len3 cfg res.1 rest

/-- A fresh `VoiceGestureDetector` driven through a sequence of calls. -/
def runVoice (len3 : Vec3 → ℚ) (cfg : VoiceConfig) (calls : List VoiceCall) :
    List (Nat × VoiceGestureEvent) :=
  runVoiceAux len3 cfg emptyLedger calls

/-! ## ZoneGestureDetector -/

/-- `ZoneGestureDetector::Config`, defaults from the header. -/
structure ZoneConfig where
  historyMs : Nat := 2000
  sweepWindowMs : Nat := 900
  sweepMinSteps : Int := 3
  sweepMinStrength : ℚ := 0.25
  sweepCooldownMs : Nat := 1600
  pulseThreshold : ℚ := 0.35
  pulseSlopeThreshold : ℚ := 0.05
  pulseCooldownMs : Nat := 900
deriving Repr

def ZoneConfig.default : ZoneConfig := {}

/-- `ZoneGestureEvent` from `GestureEvents.h` (field defaults from the
struct initializers: `zoneIndex = -1`, `hasZoneIndex = false`). -/
structure ZoneGestureEvent where
  camId : Int
  type : String
  strength : ℚ
  zoneIndex : Int
  hasZoneIndex : Bool
deriving DecidableEq, Repr

/-- `ZoneGestureDetector::ZoneSample`: a timestamp plus the 4x4 row-major
grid (`std::array<float, 16>`, modelled as its 16-element value list). -/
structure ZoneSample where
  timestamp : Nat
  values : List ℚ
deriving DecidableEq, Repr

/-- Reading `values[i]` of the 16-entry array (every source access is
in range, so the default is never consulted). -/
def zval (s : ZoneSample) (i : Nat) : ℚ := s.values.getD i 0

/-- `ZoneGestureDetector::PulseTracker` with its member defaults. -/
structure PulseTracker where
  initialized : Bool
  prevValue : ℚ
  prevSlope : ℚ
  lastTrigger : Nat
deriving DecidableEq, Repr

def PulseTracker.start : PulseTracker := ⟨false, 0, 0, 0⟩

/-- The maximum scan along one grid line: start from cell 0, strictly
greater values take over (ties keep the earlier index), exactly as the
`for (col = 1; col < 4; ...)` loops do. -/
def lineMaxIdx (get : Nat → ℚ) : Int :=
  (([1, 2, 3] : List Nat).foldl
    (fun acc i => if get i > acc.2 then ((i : Int), get i) else acc)
    ((0 : Int), get 0)).1

/-- The minimum over one grid line, same scan shape. -/
def lineMin (get : Nat → ℚ) : ℚ :=
  ([1, 2, 3] : List Nat).foldl (fun acc i => min acc (get i)) (get 0)

/-- The maximum value over one grid line. -/
def lineMax (get : Nat → ℚ) : ℚ :=
  ([1, 2, 3] : List Nat).foldl (fun acc i => max acc (get i)) (get 0)

/-- `indices[i] >= indices[i-1]` for every adjacent pair — the source's
`increasing` flag. -/
def monoNonDec : List Int → Bool
  | [] => true
  | [_] => true
  | a :: b :: rest => decide (b ≥ a) && monoNonDec (b :: rest)

/-- The source's `decreasing` flag. -/
def monoNonInc : List Int → Bool
  | [] => true
  | [_] => true
  | a :: b :: rest => decide (b ≤ a) && monoNonInc (b :: rest)

def kRowNames : List String := ["top", "upper_mid", "lower_mid", "bottom"]
def kColumnNames : List String := ["left", "mid_left", "mid_right", "right"]

/-- The per-row sweep decision of `detectSweeps`: the `continue` guards and
the two directional branches, yielding at most one guarded emission.
`indices` is the row's max-index sequence over the window, `latest` the
newest sample. -/
def rowSweepCand (cfg : ZoneConfig) (camId : Int) (latest : ZoneSample)
    (indices : List Int) (row : Nat) : Option (FireCand ZoneGestureEvent) :=
  if (indices.length : Int) < cfg.sweepMinSteps then none
  else
    let increasing := monoNonDec indices
    let decreasing := monoNonInc indices
    let delta := indices.getLastD 0 - indices.headD 0
    let rowRange := lineMax (fun c => zval latest (row * 4 + c))
      - lineMin (fun c => zval latest (row * 4 + c))
    if rowRange < cfg.sweepMinStrength then none
    else if increasing ∧ delta ≥ 2 then
      some ⟨"sweep_lr_" ++ kRowNames.getD row "", cfg.sweepCooldownMs,
        ⟨camId, "sweep_lr_" ++ kRowNames.getD row "", clamp01 rowRange, -1, false⟩⟩
    else if decreasing ∧ delta ≤ -2 then
      some ⟨"sweep_rl_" ++ kRowNames.getD row "", cfg.sweepCooldownMs,
        ⟨camId, "sweep_rl_" ++ kRowNames.getD row "", clamp01 rowRange, -1, false⟩⟩
    else none

/-- The per-column sweep decision, mirror of `rowSweepCand` with the
`sweep_tb_` / `sweep_bt_` type strings. -/
def colSweepCand (cfg : ZoneConfig) (camId : Int) (latest : ZoneSample)
    (indices : List Int) (col : Nat) : Option (FireCand ZoneGestureEvent) :=
  if (indices.length : Int) < cfg.sweepMinSteps then none
  else
    let increasing := monoNonDec indices
    let decreasing := monoNonInc indices
    let delta := indices.getLastD 0 - indices.headD 0
    let colRange := lineMax (fun r => zval latest (r * 4 + col))
      - lineMin (fun r => zval latest (r * 4 + col))
    if colRange < cfg.sweepMinStrength then none
    else if increasing ∧ delta ≥ 2 then
      some ⟨"sweep_tb_" ++ kColumnNames.getD col "", cfg.sweepCooldownMs,
        ⟨camId, "sweep_tb_" ++ kColumnNames.getD col "", clamp01 colRange, -1, false⟩⟩
    else if decreasing ∧ delta ≤ -2 then
      some ⟨"sweep_bt_" ++ kColumnNames.getD col "", cfg.sweepCooldownMs,
        ⟨camId, "sweep_bt_" ++ kColumnNames.getD col "", clamp01 colRange, -1, false⟩⟩
    else none

/-- The max-index sequence of a row over the in-window samples. -/
def rowIdxSeq (win : List ZoneSample) (row : Nat) : List Int :=
  win.map (fun s => lineMaxIdx (fun c => zval s (row * 4 + c)))

/-- The max-index sequence of a column over the in-window samples. -/
def colIdxSeq (win : List ZoneSample) (col : Nat) : List Int :=
  win.map (fun s => lineMaxIdx (fun r => zval s (r * 4 + col)))

/-- `ZoneGestureDetector::detectSweeps`.  `config.sweepMinSteps` is positive
in every configuration under study (default 3), where the source's
`static_cast<std::size_t>` is the identity. -/
def detectSweeps (cfg : ZoneConfig) (ledger : Ledger) (camId : Int)
    (history : List ZoneSample) : Ledger × List ZoneGestureEvent :=
  if (history.length : Int) < cfg.sweepMinSteps then (ledger, [])
  else
    match history.getLast? with
    | none => (ledger, [])
    | some latest =>
      let now := latest.timestamp
      let minTimestamp := if now > cfg.sweepWindowMs then now - cfg.sweepWindowMs else 0
      let win := history.filter (fun s => decide (s.timestamp ≥ minTimestamp))
      let rowCands := ([0, 1, 2, 3] : List Nat).filterMap
        (fun row => rowSweepCand cfg camId latest (rowIdxSeq win row) row)
      let colCands := ([0, 1, 2, 3] : List Nat).filterMap
        (fun col => colSweepCand cfg camId latest (colIdxSeq win col) col)
      fireAll camId now ledger [] (rowCands ++ colCands)

/-- The body of the per-cell loop of `detectPulses`: initialize the tracker
on first sight, otherwise peak-detect, fire under the per-cell cooldown, and
roll `prevSlope`/`prevValue` forward. -/
def pulseStep (cfg : ZoneConfig) (camId : Int) (timestamp : Nat) (values : List ℚ)
    (acc : (Nat → PulseTracker) × Ledger × List ZoneGestureEvent) (zoneIndex : Nat) :
    (Nat → PulseTracker) × Ledger × List ZoneGestureEvent :=
  let trackers := acc.1
  let ledger := acc.2.1
  let events := acc.2.2
  let tracker := trackers zoneIndex
  let value := values.getD zoneIndex 0
  if tracker.initialized = false then
    (fun i => if i = zoneIndex then ⟨true, value, 0, 0⟩ else trackers i, ledger, events)
  else
    let slope := value - tracker.prevValue
    let rising := tracker.prevSlope > cfg.pulseSlopeThreshold
    let falling := slope ≤ -cfg.pulseSlopeThreshold
    if rising ∧ falling ∧ value ≥ cfg.pulseThreshold
        ∧ timestamp ≥ tracker.lastTrigger + cfg.pulseCooldownMs then
      (fun i => if i = zoneIndex then ⟨true, value, slope, timestamp⟩ else trackers i,
       rememberTrigger ledger camId ("pulse_zone" ++ toString zoneIndex) timestamp,
       events ++ [⟨camId, "pulse_zone",
         clamp01 ((value - cfg.pulseThreshold) / max 0.01 (1 - cfg.pulseThreshold)),
         (zoneIndex : Int), true⟩])
    else
      (fun i => if i = zoneIndex then ⟨true, value, slope, tracker.lastTrigger⟩ else trackers i,
       ledger, events)

/-- `ZoneGestureDetector::detectPulses`: the `for (zoneIndex = 0; ... < 16)`
loop over one camera's trackers. -/
def detectPulses (cfg : ZoneConfig) (trackers : Nat → PulseTracker) (ledger : Ledger)
    (camId : Int) (sample : ZoneSample) :
    (Nat → PulseTracker) × Ledger × List ZoneGestureEvent :=
  (List.range 16).foldl (pulseStep cfg camId sample.timestamp sample.values)
    (trackers, ledger, [])

/-- `ZoneGestureDetector` instance state. -/
structure ZoneState where
  histories : Int → List ZoneSample
  lastTriggerTimes : Ledger
  pulseTrackers : Int → Nat → PulseTracker

def ZoneState.init : ZoneState :=
  ⟨fun _ => [], emptyLedger, fun _ _ => PulseTracker.start⟩

/-- `ZoneGestureDetector::updateCamera`: append the sample, trim the
camera's backlog by elapsed duration, then run the sweep pass and the pulse
pass (events in that order). -/
def updateCamera (cfg : ZoneConfig) (st : ZoneState) (camId : Int)
    (zones : List ℚ) (timestampMs : Nat) : ZoneState × List ZoneGestureEvent :=
  let history := st.histories camId ++ [⟨timestampMs, zones⟩]
  let minTimestamp := if timestampMs > cfg.historyMs then timestampMs - cfg.historyMs else 0
  let history := history.dropWhile (fun s => decide (s.timestamp < minTimestamp))
  let sweepRes := detectSweeps cfg st.lastTriggerTimes camId history
  let pulseRes := detectPulses cfg (st.pulseTrackers camId) sweepRes.1 camId
    ⟨timestampMs, zones⟩
  (⟨fun c => if c = camId then history else st.histories c,
    pulseRes.2.1,
    fun c => if c = camId then pulseRes.1 else st.pulseTrackers c⟩,
   sweepRes.2 ++ pulseRes.2.2)

/-- One external `updateCamera` call. -/
structure ZoneCall where
  camId : Int
  zones : List ℚ
  timestampMs : Nat

/-- A sequence of `updateCamera` calls against one detector instance; events
are tagged with the call timestamp. -/
def runZoneAux (cfg : ZoneConfig) :
    ZoneState → List ZoneCall → List (Nat × ZoneGestureEvent)
  | _, [] => []
  | st, call :: rest =>
    let res := updateCamera cfg st call.camId call.zones call.timestampMs
    res.2.map (fun e => (call.timestampMs, e)) ++ runZoneAux cfg res.1 rest

/-- A fresh `ZoneGestureDetector` driven through a sequence of calls. -/
def runZone (cfg : ZoneConfig) (calls : List ZoneCall) :
    List (Nat × ZoneGestureEvent) :=
  runZoneAux cfg ZoneState.init calls

/-- The cooldown the zone rules pass when gating an event: per-cell pulses
use `pulseCooldownMs`, sweeps `sweepCooldownMs`. -/
def zoneCooldown (cfg : ZoneConfig) (e : ZoneGestureEvent) : Nat :=
  if e.hasZoneIndex then cfg.pulseCooldownMs else cfg.sweepCooldownMs

/-- The eight sweep type strings. -/
def sweepTypes : List String :=
  ["sweep_lr_top", "sweep_lr_upper_mid", "sweep_lr_lower_mid", "sweep_lr_bottom",
   "sweep_rl_top", "sweep_rl_upper_mid", "sweep_rl_lower_mid", "sweep_rl_bottom",
   "sweep_tb_left", "sweep_tb_mid_left", "sweep_tb_mid_right", "sweep_tb_right",
   "sweep_bt_left", "sweep_bt_mid_left", "sweep_bt_mid_right", "sweep_bt_right"]

/-! ## GlobalGestureDetector -/

/-- `GlobalGestureDetector::Config`, defaults from the header. -/
structure GlobalConfig where
  historyMs : Nat := 5000
  eruptionLow : ℚ := 0.25
  eruptionHigh : ℚ := 0.7
  eruptionCooldownMs : Nat := 4500
  eruptionWindowMs : Nat := 1200
  stillnessMotionThreshold : ℚ := 0.22
  stillnessDurationMs : Nat := 3000
  stillnessMinVoices : Int := 3
  stillnessCooldownMs : Nat := 6000
deriving Repr

def GlobalConfig.default : GlobalConfig := {}

/-- `GlobalGestureEvent` from `GestureEvents.h`. -/
structure GlobalGestureEvent where
  type : String
  strength : ℚ
deriving DecidableEq, Repr

/-- `GlobalGestureDetector::Sample`. -/
structure GSample where
  timestamp : Nat
  globalMotion : ℚ
  activeVoices : Int
deriving DecidableEq, Repr

/-- `GlobalGestureDetector` instance state (`lastEruption`, `lastStillness`
and `stillnessStart` all start at 0, the header's member initializers). -/
structure GlobalState where
  history : List GSample
  lastEruption : Nat
  lastStillness : Nat
  stillnessStart : Nat
deriving Repr

def GlobalState.init : GlobalState := ⟨[], 0, 0, 0⟩

/-- The single pass that accumulates each partition's motion sum and count:
samples older than the eruption window are "previous", the rest "recent". -/
def eruptionSums (eruptionWindowStart : Nat) (history : List GSample) :
    ℚ × Nat × ℚ × Nat :=
  history.foldl
    (fun acc s =>
      if s.timestamp < eruptionWindowStart then
        (acc.1 + s.globalMotion, acc.2.1 + 1, acc.2.2.1, acc.2.2.2)
      else
        (acc.1, acc.2.1, acc.2.2.1 + s.globalMotion, acc.2.2.2 + 1))
    (0, 0, 0, 0)

/-- The history append-and-trim of `GlobalGestureDetector::update`. -/
def trimHistory (cfg : GlobalConfig) (history : List GSample) (timestampMs : Nat) :
    List GSample :=
  history.dropWhile (fun s => decide (s.timestamp <
    (if timestampMs > cfg.historyMs then timestampMs - cfg.historyMs else 0)))

/-- The previous/recent partition averages and counts, in the order
(previousAvg, previousCount, recentAvg, recentCount); an empty partition's
average stays 0, as in the source. -/
def eruptionAverages (cfg : GlobalConfig) (history : List GSample)
    (timestampMs : Nat) : ℚ × Nat × ℚ × Nat :=
  let eruptionWindowStart :=
    if timestampMs > cfg.eruptionWindowMs then timestampMs - cfg.eruptionWindowMs else 0
  let sums := eruptionSums eruptionWindowStart history
  ((if sums.2.1 > 0 then sums.1 / ((sums.2.1 : Nat) : ℚ) else 0), sums.2.1,
   (if sums.2.2.2 > 0 then sums.2.2.1 / ((sums.2.2.2 : Nat) : ℚ) else 0), sums.2.2.2)

/-- The stillness-timer update: the timer starts (the 0-as-unset sentinel)
while the quiet condition holds and resets to unset the instant it breaks. -/
def stillnessLatch (cfg : GlobalConfig) (start0 : Nat) (globalMotion : ℚ)
    (activeVoices : Int) (timestampMs : Nat) : Nat :=
  if globalMotion ≤ cfg.stillnessMotionThreshold ∧ activeVoices ≥ cfg.stillnessMinVoices then
    (if start0 = 0 then timestampMs else start0)
  else 0

/-- `GlobalGestureDetector::update`: append and duration-trim the history,
average the previous/recent partitions, run the hysteretic eruption edge and
the stillness duration latch (with its 0-as-unset sentinel and its post-fire
rebase to the current time). -/
def globalUpdate (cfg : GlobalConfig) (st : GlobalState) (globalMotion : ℚ)
    (activeVoices : Int) (timestampMs : Nat) : GlobalState × List GlobalGestureEvent :=
  let history := trimHistory cfg (st.history ++ [⟨timestampMs, globalMotion, activeVoices⟩])
    timestampMs
  let avgs := eruptionAverages cfg history timestampMs
  let previousAvg := avgs.1
  let previousCount := avgs.2.1
  let recentAvg := avgs.2.2.1
  let recentCount := avgs.2.2.2
  let eruptionFires := recentCount > 0 ∧ previousCount > 0
    ∧ recentAvg ≥ cfg.eruptionHigh ∧ previousAvg ≤ cfg.eruptionLow
    ∧ timestampMs ≥ st.lastEruption + cfg.eruptionCooldownMs
  let events : List GlobalGestureEvent :=
    if eruptionFires then
      [⟨"eruption", clamp01 ((recentAvg - cfg.eruptionHigh) / max 0.01 (1 - cfg.eruptionHigh))⟩]
    else []
  let lastEruption := if eruptionFires then timestampMs else st.lastEruption
  let stillnessStart := stillnessLatch cfg st.stillnessStart globalMotion activeVoices
    timestampMs
  let stillnessFires := stillnessStart > 0
    ∧ timestampMs - stillnessStart ≥ cfg.stillnessDurationMs
    ∧ timestampMs ≥ st.lastStillness + cfg.stillnessCooldownMs
  if stillnessFires then
    let motionStrength := clamp01 (1 - recentAvg / max 0.01 cfg.stillnessMotionThreshold)
    let voiceStrength := clamp01 (((activeVoices - cfg.stillnessMinVoices : Int) : ℚ)
      / max 1 ((cfg.stillnessMinVoices : Int) : ℚ))
    (⟨history, lastEruption, timestampMs, timestampMs⟩,
     events ++ [⟨"stillness", clamp01 (0.6 * motionStrength + 0.4 * voiceStrength)⟩])
  else
    (⟨history, lastEruption, st.lastStillness, stillnessStart⟩, events)

/-- One external `GlobalGestureDetector::update` call. -/
structure GlobalCall where
  globalMotion : ℚ
  activeVoices : Int
  timestampMs : Nat

/-- A sequence of `update` calls against one detector instance; events are
tagged with the call timestamp. -/
def runGlobalAux (cfg : GlobalConfig) :
    GlobalState → List GlobalCall → List (Nat × GlobalGestureEvent)
  | _, [] => []
  | st, call :: rest =>
    let res := globalUpdate cfg st call.globalMotion call.activeVoices call.timestampMs
    res.2.map (fun e => (call.timestampMs, e)) ++ runGlobalAux cfg res.1 rest

/-- A fresh `GlobalGestureDetector` driven through a sequence of calls. -/
def runGlobal (cfg : GlobalConfig) (calls : List GlobalCall) :
    List (Nat × GlobalGestureEvent) :=
  runGlobalAux cfg GlobalState.init calls

/-! ## Concrete scenario inputs -/

/-- Scenario A history: y = 0.5 at t = 0, y = 0.3 at t = 500 ms, no
horizontal travel.  The second sample's velocity is the one
`GestureHistory::addSample` derives: (0.3 - 0.5) / 0.5 s = -0.4 per second
in y. -/
def raiseSamples : List Sample :=
  [⟨0, ⟨0, 0.5, 0⟩, Vec3.zero, 0, 0⟩,
   ⟨500, ⟨0, 0.3, 0⟩, ⟨0, -0.4, 0⟩, 0, 0⟩]

/-- A 4x4 grid with one active top-row cell (cell 0) and the rest quiet. -/
def pulseGrid (v : ℚ) : List ℚ :=
  [v, 0, 0, 0, 0, 0, 0, 0, 0, 0, 0, 0, 0, 0, 0, 0]

/-- Scenario C as written: cell 0 runs 0.1 → 0.5 → 0.3 (slopes +0.4 then
-0.2), timestamps past the initial pulse cooldown. -/
def pulseCallsSpec : List ZoneCall :=
  [⟨0, pulseGrid 0.1, 1000⟩, ⟨0, pulseGrid 0.5, 1100⟩, ⟨0, pulseGrid 0.3, 1200⟩]

/-- Scenario C with a post-peak value that clears `pulseThreshold`:
0.1 → 0.5 → 0.4 (slopes +0.4 then -0.1). -/
def pulseCallsFiring : List ZoneCall :=
  [⟨0, pulseGrid 0.1, 1000⟩, ⟨0, pulseGrid 0.5, 1100⟩, ⟨0, pulseGrid 0.4, 1200⟩]

/-- A grid whose cells 0 and 1 carry the same value, rest quiet. -/
def twinGrid (v : ℚ) : List ℚ :=
  [v, v, 0, 0, 0, 0, 0, 0, 0, 0, 0, 0, 0, 0, 0, 0]

/-- Two cells of camera 0 traced through the same rise-then-fall
(0.1 → 0.5 → 0.44), so both pulse at t = 1200. -/
def twinPulseCalls : List ZoneCall :=
  [⟨0, twinGrid 0.1, 1000⟩, ⟨0, twinGrid 0.5, 1100⟩, ⟨0, twinGrid 0.44, 1200⟩]

/-- A grid whose top row holds the given four values, rest quiet. -/
def rowGrid (a b c d : ℚ) : List ℚ :=
  [a, b, c, d, 0, 0, 0, 0, 0, 0, 0, 0, 0, 0, 0, 0]

/-- Scenario B forward: the top row's hottest cell drifts 0 → 1 → 2 → 3
over four samples spanning 900 ms; the final row range is 0.4. -/
def sweepCallsLR : List ZoneCall :=
  [⟨0, rowGrid 0.1 0 0 0, 0⟩,
   ⟨0, rowGrid 0 0.1 0 0, 300⟩,
   ⟨0, rowGrid 0 0.05 0.1 0, 600⟩,
   ⟨0, rowGrid 0 0.1 0.2 0.4, 900⟩]

/-- Scenario B reversed: max-index sequence 3 → 2 → 1 → 0. -/
def sweepCallsRL : List ZoneCall :=
  [⟨0, rowGrid 0 0 0 0.1, 0⟩,
   ⟨0, rowGrid 0 0 0.1 0, 300⟩,
   ⟨0, rowGrid 0 0.1 0.05 0, 600⟩,
   ⟨0, rowGrid 0.4 0.2 0.1 0, 900⟩]

/-- Scenario E inputs: globalMotion 0.1, activeCount 4, ticks every 300 ms
covering a 3000 ms quiet period that starts at `t0`. -/
def stillCalls (t0 : Nat) : List GlobalCall :=
  (List.range 11).map (fun k => ⟨0.1, 4, t0 + 300 * k⟩)

/-- Sample `j` of the Scenario E stream that starts at `t0`, as stored by
the detector. -/
def stillSample (t0 j : Nat) : GSample := ⟨t0 + 300 * j, 0.1, 4⟩

/-- The detector state reached after the first `k` ticks of the Scenario E
stream, for a start time `t0 > 0` and before any stillness has fired: the
history holds the `k` samples, no event time has been recorded, and the
stillness timer latched `t0` at the first tick. -/
def stillState (t0 k : Nat) : GlobalState :=
  ⟨(List.range k).map (stillSample t0), 0, 0, if k = 0 then 0 else t0⟩

/-- The tail of the Scenario E stream from tick `i` on. -/
def stillCallsFrom (t0 i : Nat) : List GlobalCall :=
  (List.range (11 - i)).map (fun j => ⟨0.1, 4, t0 + 300 * (i + j)⟩)

/-- A quiet-then-loud aggregate stream: previous average 0.2, recent
average 0.8 at t = 5400 (past the initial eruption cooldown). -/
def eruptCalls : List GlobalCall :=
  [⟨0.2, 1, 4000⟩, ⟨0.8, 1, 5400⟩]

/-- The monotonic-caller-clock contract on a pair of history calls: two
`addSample` calls for the same voice come with strictly increasing
timestamps; every other pair is unconstrained. -/
def addsOrderedB : HistoryOp → HistoryOp → Bool
  | .addSample v _ _ _ t1, .addSample w _ _ _ t2 => decide (v ≠ w) || decide (t1 < t2)
  | _, _ => true

/-- The two-call sequence refuting C8 as stated: the second `addSample` for
voice 0 carries an older timestamp, and `addSample` stores it anyway. -/
def nonMonoOps : List HistoryOp :=
  [.addSample 0 Vec3.zero 0 0 100, .addSample 0 Vec3.zero 0 0 50]

/-- A monotonic two-call sequence for the amended C8. -/
def monoOps : List HistoryOp :=
  [.addSample 0 Vec3.zero 0 0 10, .addSample 0 Vec3.zero 0 0 20]

/-! # Theorems -/

attribute [local semireducible] Rat.sub Rat.add Rat.mul Rat.inv Rat.ofScientific

theorem clamp01_nonneg (value : ℚ) : 0 ≤ clamp01 value := by
  unfold clamp01
  split
  · exact le_refl 0
  · split
    · exact zero_le_one
    · exact le_of_not_lt (by assumption)

theorem clamp01_le_one (value : ℚ) : clamp01 value ≤ 1 := by
  unfold clamp01
  split
  · exact zero_le_one
  · split
    · exact le_refl 1
    · exact le_of_not_lt (by assumption)

theorem trimFront_length_le (cap : Nat) (l : List Sample) :
    (trimFront cap l).length ≤ cap := by
  induction l with
  | nil => simp [trimFront]
  | cons s rest ih =>
    unfold trimFront
    split
    · exact ih
    · omega

theorem trimFront_sublist (cap : Nat) (l : List Sample) :
    List.Sublist (trimFront cap l) l := by
  induction l with
  | nil => simp [trimFront]
  | cons s rest ih =>
    unfold trimFront
    split
    · exact ih.trans (List.sublist_cons_self s rest)
    · exact List.Sublist.refl _

theorem trimFront_subset {cap : Nat} {l : List Sample} {s : Sample}
    (h : s ∈ trimFront cap l) : s ∈ l :=
  (trimFront_sublist cap l).subset h

/-! ### C3: bounded histories -/

theorem applyOp_length_le (g : GestureHistory) (op : HistoryOp)
    (h : ∀ v, (g.histories v).length ≤ g.capacity) :
    ∀ v, ((g.applyOp op).histories v).length ≤ (g.applyOp op).capacity := by
  intro v
  cases op with
  | setCapacity n =>
    simpa [GestureHistory.applyOp, GestureHistory.setCapacity] using
      trimFront_length_le (max 1 n) (g.histories v)
  | addSample w p m e t =>
    by_cases hv : v = w
    · simpa [GestureHistory.applyOp, GestureHistory.addSample, hv] using
        trimFront_length_le g.capacity _
    · simpa [GestureHistory.applyOp, GestureHistory.addSample, hv] using h v
  | removeVoice w =>
    by_cases hv : v = w
    · simp [GestureHistory.applyOp, GestureHistory.removeVoice, hv]
    · simpa [GestureHistory.applyOp, GestureHistory.removeVoice, hv] using h v

theorem foldl_applyOp_length_le (ops : List HistoryOp) (g : GestureHistory)
    (h : ∀ v, (g.histories v).length ≤ g.capacity) :
    ∀ v, ((ops.foldl GestureHistory.applyOp g).histories v).length ≤
      (ops.foldl GestureHistory.applyOp g).capacity := by
  induction ops generalizing g with
  | nil => simpa using h
  | cons op rest ih =>
    simpa using ih (g.applyOp op) (applyOp_length_le g op h)

/-- C3: for every voice id and every sequence of `setCapacity`, `addSample`
and `removeVoice` calls, the stored history length for that voice stays at
or below the configured capacity; and `setCapacity n` clamps the capacity to
`max 1 n` while immediately trimming every buffer to that bound. -/
theorem claim_C3_capacity_invariant :
    (∀ (ops : List HistoryOp) (v : Int),
      ((GestureHistory.runOps ops).histories v).length ≤
        (GestureHistory.runOps ops).capacity)
    ∧ (∀ (g : GestureHistory) (n : Nat),
      (g.setCapacity n).capacity = max 1 n
      ∧ 1 ≤ (g.setCapacity n).capacity
      ∧ ∀ v, ((g.setCapacity n).histories v).length ≤ max 1 n) := by
  constructor
  · intro ops v
    exact foldl_applyOp_length_le ops GestureHistory.init
      (fun _ => by simp [GestureHistory.init]) v
  · intro g n
    refine ⟨rfl, ?_, fun v => ?_⟩
    · simp [GestureHistory.setCapacity]
    · simpa [GestureHistory.setCapacity] using trimFront_length_le (max 1 n) (g.histories v)

/-! ### C8: timestamp monotonicity inside one history -/

/-- C8 counterexample: the claim quantifies over *every* sequence of
`addSample` calls, but `addSample` never validates the incoming timestamp;
feeding voice 0 a sample at t = 100 and then one at t = 50 leaves the stored
history with timestamps [100, 50], which is not strictly increasing. -/
theorem claim_C8_counterexample :
    ((GestureHistory.runOps nonMonoOps).histories 0).map Sample.timestamp = [100, 50]
    ∧ ¬ List.Pairwise (fun a b : Sample => a.timestamp < b.timestamp)
        ((GestureHistory.runOps nonMonoOps).histories 0) := by
  constructor
  · decide
  · decide

theorem runOps_pairwise_aux (ops : List HistoryOp) (g : GestureHistory)
    (hops : List.Pairwise (fun a b => addsOrderedB a b = true) ops)
    (hg : ∀ v, List.Pairwise (fun a b : Sample => a.timestamp < b.timestamp) (g.histories v))
    (hcompat : ∀ v p m e t, HistoryOp.addSample v p m e t ∈ ops →
      ∀ s ∈ g.histories v, s.timestamp < t) :
    ∀ v, List.Pairwise (fun a b : Sample => a.timestamp < b.timestamp)
      ((ops.foldl GestureHistory.applyOp g).histories v) := by
  induction ops generalizing g with
  | nil => simpa using hg
  | cons op rest ih =>
    rcases List.pairwise_cons.mp hops with ⟨hhead, htail⟩
    simp only [List.foldl_cons]
    refine ih (g.applyOp op) htail ?_ ?_
    · -- pairwise is preserved by one call
      intro v
      cases op with
      | setCapacity n =>
        exact List.Pairwise.sublist (trimFront_sublist _ _) (hg v)
      | addSample w p m e t =>
        by_cases hv : v = w
        · subst hv
          simp only [GestureHistory.applyOp, GestureHistory.addSample, if_pos rfl]
          refine List.Pairwise.sublist (trimFront_sublist _ _) ?_
          refine (List.pairwise_append).mpr ⟨hg v, List.pairwise_singleton _ _, ?_⟩
          intro a ha b hb
          simp only [List.mem_singleton] at hb
          subst hb
          exact hcompat v p m e t (List.mem_cons_self _ _) a ha
        · simpa [GestureHistory.applyOp, GestureHistory.addSample, hv] using hg v
      | removeVoice w =>
        by_cases hv : v = w
        · simp [GestureHistory.applyOp, GestureHistory.removeVoice, hv]
        · simpa [GestureHistory.applyOp, GestureHistory.removeVoice, hv] using hg v
    · -- the compatibility invariant survives one call
      intro v p m e t hmem s hs
      cases op with
      | setCapacity n =>
        simp only [GestureHistory.applyOp, GestureHistory.setCapacity] at hs
        exact hcompat v p m e t (List.mem_cons_of_mem _ hmem) s (trimFront_subset hs)
      | addSample w p0 m0 e0 t0 =>
        by_cases hv : v = w
        · subst hv
          simp only [GestureHistory.applyOp, GestureHistory.addSample, if_pos rfl] at hs
          rcases List.mem_append.mp (trimFront_subset hs) with hold | hnew
          · exact hcompat v p m e t (List.mem_cons_of_mem _ hmem) s hold
          · have ht0 : t0 < t := by
              have := hhead _ hmem
              simp only [addsOrderedB] at this
              rcases Bool.or_eq_true _ _ |>.mp this with hne | hlt
              · simp at hne
              · simpa using hlt
            simp only [List.mem_singleton] at hnew
            subst hnew
            simpa using ht0
        · simp only [GestureHistory.applyOp, GestureHistory.addSample, if_neg hv] at hs
          exact hcompat v p m e t (List.mem_cons_of_mem _ hmem) s hs
      | removeVoice w =>
        by_cases hv : v = w
        · simp [GestureHistory.applyOp, GestureHistory.removeVoice, hv] at hs
        · simp only [GestureHistory.applyOp, GestureHistory.removeVoice, if_neg hv] at hs
          exact hcompat v p m e t (List.mem_cons_of_mem _ hmem) s hs

/-- C8 amended: provided the `addSample` timestamps for each voice are
strictly increasing across the call sequence (the monotonic caller clock the
repository documents), the timestamps stored in every voice's history are
strictly increasing from oldest to newest. -/
theorem claim_C8_amended (ops : List HistoryOp)
    (hops : List.Pairwise (fun a b => addsOrderedB a b = true) ops) :
    ∀ v, List.Pairwise (fun a b : Sample => a.timestamp < b.timestamp)
      ((GestureHistory.runOps ops).histories v) := by
  refine runOps_pairwise_aux ops GestureHistory.init hops ?_ ?_
  · intro v
    simp [GestureHistory.init]
  · intro v p m e t _ s hs
    simp [GestureHistory.init] at hs

/-- Witness for the amended C8 at a concrete monotonic call sequence. -/
theorem claim_C8_amended_witness :
    List.Pairwise (fun a b : Sample => a.timestamp < b.timestamp)
      ((GestureHistory.runOps monoOps).histories 0) :=
  claim_C8_amended monoOps (by decide) 0

/-! ### The cooldown-ledger discipline shared by the voice and zone rules -/

theorem canTrigger_true_gate {L : Ledger} {ownerId : Int} {type : String}
    {now cd : Nat} (h : canTrigger L ownerId type now cd = true) :
    ∀ m, L ownerId type = some m → now ≥ m + cd := by
  intro m hm
  unfold canTrigger at h
  rw [hm] at h
  simpa using h

theorem rememberTrigger_same (L : Ledger) (ownerId : Int) (type : String) (now : Nat) :
    rememberTrigger L ownerId type now ownerId type = some now := by
  simp [rememberTrigger]

theorem rememberTrigger_other {o : Int} {k : String} {ownerId : Int} {type : String}
    (L : Ledger) (now : Nat) (h : ¬(o = ownerId ∧ k = type)) :
    rememberTrigger L ownerId type now o k = L o k := by
  simp only [rememberTrigger, if_neg h]

theorem fireAll_append {E : Type} (ownerId : Int) (now : Nat)
    (cands : List (FireCand E)) :
    ∀ (L : Ledger) (evs : List E),
      fireAll ownerId now L evs cands
        = ((fireAll ownerId now L [] cands).1,
           evs ++ (fireAll ownerId now L [] cands).2) := by
  induction cands with
  | nil => intro L evs; simp [fireAll]
  | cons c cs ih =>
    intro L evs
    by_cases h : canTrigger L ownerId c.type now c.cooldownMs = true
    · have hs1 : fireStep ownerId now (L, evs) c
          = (rememberTrigger L ownerId c.type now, evs ++ [c.event]) := by
        simp [fireStep, h]
      have hs2 : fireStep ownerId now (L, ([] : List E)) c
          = (rememberTrigger L ownerId c.type now, [c.event]) := by
        simp [fireStep, h]
      simp only [fireAll, List.foldl_cons, hs1, hs2]
      have h1 := ih (rememberTrigger L ownerId c.type now) (evs ++ [c.event])
      have h2 := ih (rememberTrigger L ownerId c.type now) [c.event]
      simp only [fireAll] at h1 h2
      rw [h1, h2]
      simp
    · have hs1 : fireStep ownerId now (L, evs) c = (L, evs) := by
        simp [fireStep, h]
      have hs2 : fireStep ownerId now (L, ([] : List E)) c = (L, []) := by
        simp [fireStep, h]
      simp only [fireAll, List.foldl_cons, hs1, hs2]
      exact ih L evs

/-- The one combined fact about a block of guarded emissions, when each
candidate's cooldown agrees with the per-type cooldown table `cdF`:
every emitted event comes from a candidate, passed its cooldown gate
against the pre-block ledger, and leaves the ledger recording `now` under
its key; two same-typed emissions force a zero cooldown; and the ledger is
either untouched at a key or stamped to `now` with the gate honoured. -/
theorem fireAll_spec {E : Type} (typeOf : E → String) (cdF : String → Nat)
    (ownerId : Int) (now : Nat) :
    ∀ (cands : List (FireCand E)) (L : Ledger),
      (∀ c ∈ cands, typeOf c.event = c.type ∧ c.cooldownMs = cdF c.type) →
      (∀ e ∈ (fireAll ownerId now L [] cands).2,
         (∃ c ∈ cands, e = c.event)
         ∧ (∀ m, L ownerId (typeOf e) = some m → now ≥ m + cdF (typeOf e))
         ∧ (fireAll ownerId now L [] cands).1 ownerId (typeOf e) = some now)
      ∧ List.Pairwise (fun a b => typeOf a = typeOf b → cdF (typeOf a) = 0)
          (fireAll ownerId now L [] cands).2
      ∧ (∀ (o : Int) (k : String),
           (fireAll ownerId now L [] cands).1 o k = L o k
           ∨ (o = ownerId ∧ (fireAll ownerId now L [] cands).1 o k = some now
              ∧ ∀ m, L o k = some m → now ≥ m + cdF k)) := by
  intro cands
  induction cands with
  | nil =>
    intro L _
    refine ⟨?_, ?_, ?_⟩
    · intro e he; simp [fireAll] at he
    · simp [fireAll]
    · intro o k; left; rfl
  | cons c cs ih =>
    intro L hc
    have hchead := hc c (List.mem_cons_self _ _)
    have hctail : ∀ c' ∈ cs, typeOf c'.event = c'.type ∧ c'.cooldownMs = cdF c'.type :=
      fun c' h' => hc c' (List.mem_cons_of_mem _ h')
    by_cases ht : canTrigger L ownerId c.type now c.cooldownMs = true
    · -- the head candidate fires
      have hs1 : fireStep ownerId now (L, ([] : List E)) c
          = (rememberTrigger L ownerId c.type now, [c.event]) := by
        simp [fireStep, ht]
      have hstep : fireAll ownerId now L [] (c :: cs)
          = ((fireAll ownerId now (rememberTrigger L ownerId c.type now) [] cs).1,
             c.event :: (fireAll ownerId now (rememberTrigger L ownerId c.type now) [] cs).2) := by
        simp only [fireAll, List.foldl_cons, hs1]
        have := fireAll_append ownerId now cs (rememberTrigger L ownerId c.type now) [c.event]
        simp only [fireAll] at this
        rw [this]
        simp
      set L1 := rememberTrigger L ownerId c.type now with hL1
      have hgateL : ∀ m, L ownerId c.type = some m → now ≥ m + cdF c.type := by
        intro m hm
        have h1 := canTrigger_true_gate ht m hm
        have h2 := hchead.2
        omega
      rcases ih L1 hctail with ⟨ihA, ihC, ihD⟩
      have hL1same : L1 ownerId c.type = some now := rememberTrigger_same L ownerId c.type now
      have hL1other : ∀ (o : Int) (k : String), ¬(o = ownerId ∧ k = c.type) → L1 o k = L o k :=
        fun o k h => rememberTrigger_other L now h
      have hfinal : (fireAll ownerId now L1 [] cs).1 ownerId c.type = some now := by
        rcases ihD ownerId c.type with h | h
        · rw [h, hL1same]
        · exact h.2.1
      rw [hstep]
      refine ⟨?_, ?_, ?_⟩
      · -- events
        intro e he
        rcases List.mem_cons.mp he with rfl | he'
        · refine ⟨⟨c, List.mem_cons_self _ _, rfl⟩, ?_, ?_⟩
          · rw [hchead.1]; exact hgateL
          · rw [hchead.1]; exact hfinal
        · rcases ihA e he' with ⟨⟨c', hc', rfl⟩, hgate1, hfin1⟩
          refine ⟨⟨c', List.mem_cons_of_mem _ hc', rfl⟩, ?_, hfin1⟩
          by_cases hk : typeOf c'.event = c.type
          · intro m hm
            have h0 : cdF (typeOf c'.event) = 0 := by
              have := hgate1 now (by rw [hk]; exact hL1same)
              omega
            have := hgateL m (by rwa [hk] at hm)
            omega
          · intro m hm
            exact hgate1 m (by
              rw [hL1other ownerId (typeOf c'.event) (by simp [hk])]
              exact hm)
      · -- pairwise
        refine List.pairwise_cons.mpr ⟨?_, ihC⟩
        intro b hb heq
        rcases ihA b hb with ⟨_, hgate1, _⟩
        have hbt : typeOf b = c.type := by rw [← heq, hchead.1]
        have hsome : L1 ownerId (typeOf b) = some now := by rw [hbt]; exact hL1same
        have hge := hgate1 now hsome
        rw [hbt] at hge
        rw [heq, hbt]
        omega
      · -- ledger cases
        intro o k
        rcases ihD o k with h | h
        · by_cases hok : o = ownerId ∧ k = c.type
          · right
            refine ⟨hok.1, ?_, ?_⟩
            · rw [h, hok.1, hok.2, hL1same]
            · intro m hm
              rw [hok.2] at hm ⊢
              rw [hok.1] at hm
              exact hgateL m hm
          · left
            rw [h, hL1other o k hok]
        · right
          refine ⟨h.1, h.2.1, ?_⟩
          by_cases hk : k = c.type
          · intro m hm
            rw [hk] at hm ⊢
            rw [h.1] at hm
            exact hgateL m hm
          · intro m hm
            exact h.2.2 m (by
              rw [hL1other o k (by simp [hk])]
              exact hm)
    · -- the head candidate is rejected by its cooldown
      have hs1 : fireStep ownerId now (L, ([] : List E)) c = (L, []) := by
        simp [fireStep, ht]
      have hstep : fireAll ownerId now L [] (c :: cs) = fireAll ownerId now L [] cs := by
        simp only [fireAll, List.foldl_cons, hs1]
      rw [hstep]
      rcases ih L hctail with ⟨ihA, ihC, ihD⟩
      refine ⟨?_, ihC, ihD⟩
      intro e he
      rcases ihA e he with ⟨⟨c', hc', rfl⟩, hgate, hfin⟩
      exact ⟨⟨c', List.mem_cons_of_mem _ hc', rfl⟩, hgate, hfin⟩

/-! ### Per-call facts about `updateVoice` -/

theorem voiceCands_prop (len3 : Vec3 → ℚ) (cfg : VoiceConfig) (voiceId : Int)
    (samples : List Sample) :
    ∀ c ∈ voiceCands len3 cfg voiceId samples,
      c.event.type = c.type ∧ c.cooldownMs = voiceCooldown cfg c.type
      ∧ c.event.voiceId = voiceId ∧ ∃ q, c.event.strength = clamp01 q := by
  intro c hc
  simp only [voiceCands, List.mem_append] at hc
  rcases hc with ((((hc | hc) | hc) | hc) | hc) | hc
  all_goals split at hc <;> simp only [List.mem_singleton, List.not_mem_nil] at hc
  all_goals subst hc
  · exact ⟨rfl, by simp [voiceCooldown], rfl, _, rfl⟩
  · exact ⟨rfl, by simp [voiceCooldown], rfl, _, rfl⟩
  · refine ⟨rfl, ?_, rfl, _, rfl⟩
    split <;> simp [voiceCooldown]
  · exact ⟨rfl, by simp [voiceCooldown], rfl, _, rfl⟩
  · exact ⟨rfl, by simp [voiceCooldown], rfl, _, rfl⟩
  · exact ⟨rfl, by simp [voiceCooldown], rfl, _, rfl⟩

theorem updateVoice_spec (len3 : Vec3 → ℚ) (cfg : VoiceConfig) (L : Ledger)
    (voiceId : Int) (samples : List Sample) :
    (∀ e ∈ (updateVoice len3 cfg L voiceId samples).2,
       e.voiceId = voiceId
       ∧ (∀ m, L voiceId e.type = some m → voiceNow samples ≥ m + voiceCooldown cfg e.type)
       ∧ (updateVoice len3 cfg L voiceId samples).1 voiceId e.type = some (voiceNow samples)
       ∧ ∃ q, e.strength = clamp01 q)
    ∧ List.Pairwise (fun a b : VoiceGestureEvent =>
        a.type = b.type → voiceCooldown cfg a.type = 0)
        (updateVoice len3 cfg L voiceId samples).2
    ∧ (∀ (o : Int) (k : String),
        (updateVoice len3 cfg L voiceId samples).1 o k = L o k
        ∨ (o = voiceId ∧ (updateVoice len3 cfg L voiceId samples).1 o k = some (voiceNow samples)
           ∧ ∀ m, L o k = some m → voiceNow samples ≥ m + voiceCooldown cfg k)) := by
  unfold updateVoice
  split
  · refine ⟨?_, ?_, ?_⟩
    · intro e he; simp at he
    · simp
    · intro o k; left; rfl
  · split
    · refine ⟨?_, ?_, ?_⟩
      · intro e he; simp at he
      · simp
      · intro o k; left; rfl
    · have hcands := voiceCands_prop len3 cfg voiceId samples
      have hprop : ∀ c ∈ voiceCands len3 cfg voiceId samples,
          VoiceGestureEvent.type c.event = c.type
          ∧ c.cooldownMs = voiceCooldown cfg c.type := by
        intro c hc
        exact ⟨(hcands c hc).1, (hcands c hc).2.1⟩
      rcases fireAll_spec VoiceGestureEvent.type (voiceCooldown cfg) voiceId
        (voiceNow samples) (voiceCands len3 cfg voiceId samples) L hprop with ⟨hA, hC, hD⟩
      refine ⟨?_, hC, hD⟩
      intro e he
      rcases hA e he with ⟨⟨c, hc, rfl⟩, hgate, hfin⟩
      exact ⟨(hcands c hc).2.2.1, hgate, hfin, (hcands c hc).2.2.2⟩

/-! ### Trace facts about a sequence of `updateVoice` calls -/

theorem runVoiceAux_future (len3 : Vec3 → ℚ) (cfg : VoiceConfig) :
    ∀ (calls : List VoiceCall) (L : Ledger),
      ∀ p ∈ runVoiceAux len3 cfg L calls,
        ∀ m, L p.2.voiceId p.2.type = some m →
          p.1 ≥ m + voiceCooldown cfg p.2.type := by
  intro calls
  induction calls with
  | nil => intro L p hp; simp [runVoiceAux] at hp
  | cons call rest ih =>
    intro L p hp m hm
    rcases updateVoice_spec len3 cfg L call.voiceId call.samples with ⟨hA, _, hD⟩
    simp only [runVoiceAux, List.mem_append, List.mem_map] at hp
    rcases hp with ⟨e, he, rfl⟩ | hp
    · rcases hA e he with ⟨hvid, hgate, _, _⟩
      rw [hvid] at hm
      exact hgate m hm
    · rcases hD p.2.voiceId p.2.type with h | h
      · exact ih _ p hp m (by rw [h]; exact hm)
      · have h1 := ih _ p hp (voiceNow call.samples) h.2.1
        have h2 := h.2.2 m hm
        omega

theorem runVoiceAux_pairwise (len3 : Vec3 → ℚ) (cfg : VoiceConfig) :
    ∀ (calls : List VoiceCall) (L : Ledger),
      List.Pairwise (fun a b : Nat × VoiceGestureEvent =>
        a.2.voiceId = b.2.voiceId → a.2.type = b.2.type →
          b.1 ≥ a.1 + voiceCooldown cfg a.2.type)
        (runVoiceAux len3 cfg L calls) := by
  intro calls
  induction calls with
  | nil => intro L; simp [runVoiceAux]
  | cons call rest ih =>
    intro L
    rcases updateVoice_spec len3 cfg L call.voiceId call.samples with ⟨hA, hC, _⟩
    simp only [runVoiceAux]
    refine List.pairwise_append.mpr ⟨?_, ih _, ?_⟩
    · -- events of one call are stamped with one time; same-key pairs force cd = 0
      refine List.Pairwise.map _ ?_ hC
      intro a b hab
      intro _ htype
      have h0 : voiceCooldown cfg a.type = 0 := hab htype
      show voiceNow call.samples ≥ voiceNow call.samples + voiceCooldown cfg a.type
      omega
    · -- an event of this call gates every later same-key event
      intro a ha b hb
      rcases List.mem_map.mp ha with ⟨e, he, rfl⟩
      intro hvid htype
      have hvid' : e.voiceId = b.2.voiceId := hvid
      have htype' : e.type = b.2.type := htype
      rcases hA e he with ⟨hev, _, hfin, _⟩
      have hkey : (updateVoice len3 cfg L call.voiceId call.samples).1 b.2.voiceId b.2.type
          = some (voiceNow call.samples) := by
        rw [← hvid', ← htype', hev]
        exact hfin
      have hfut := runVoiceAux_future len3 cfg rest _ b hb (voiceNow call.samples) hkey
      have hcd : voiceCooldown cfg b.2.type = voiceCooldown cfg e.type := by rw [htype']
      show b.1 ≥ voiceNow call.samples + voiceCooldown cfg e.type
      omega

/-! ### Per-call facts about the zone sweep pass -/

theorem rowSweepCand_prop (cfg : ZoneConfig) (camId : Int) (latest : ZoneSample)
    (indices : List Int) (row : Nat) (hrow : row ∈ ([0, 1, 2, 3] : List Nat)) :
    ∀ c, rowSweepCand cfg camId latest indices row = some c →
      c.event.type = c.type ∧ c.cooldownMs = cfg.sweepCooldownMs
      ∧ c.event.camId = camId ∧ c.event.hasZoneIndex = false
      ∧ c.type ∈ sweepTypes ∧ ∃ q, c.event.strength = clamp01 q := by
  intro c hc
  unfold rowSweepCand at hc
  simp only [] at hc
  split at hc
  · exact absurd hc (by simp)
  · split at hc
    · exact absurd hc (by simp)
    · split at hc
      · injection hc with hc
        subst hc
        refine ⟨rfl, rfl, rfl, rfl, ?_, _, rfl⟩
        fin_cases hrow <;> simp [sweepTypes, kRowNames]
      · split at hc
        · injection hc with hc
          subst hc
          refine ⟨rfl, rfl, rfl, rfl, ?_, _, rfl⟩
          fin_cases hrow <;> simp [sweepTypes, kRowNames]
        · exact absurd hc (by simp)

theorem colSweepCand_prop (cfg : ZoneConfig) (camId : Int) (latest : ZoneSample)
    (indices : List Int) (col : Nat) (hcol : col ∈ ([0, 1, 2, 3] : List Nat)) :
    ∀ c, colSweepCand cfg camId latest indices col = some c →
      c.event.type = c.type ∧ c.cooldownMs = cfg.sweepCooldownMs
      ∧ c.event.camId = camId ∧ c.event.hasZoneIndex = false
      ∧ c.type ∈ sweepTypes ∧ ∃ q, c.event.strength = clamp01 q := by
  intro c hc
  unfold colSweepCand at hc
  simp only [] at hc
  split at hc
  · exact absurd hc (by simp)
  · split at hc
    · exact absurd hc (by simp)
    · split at hc
      · injection hc with hc
        subst hc
        refine ⟨rfl, rfl, rfl, rfl, ?_, _, rfl⟩
        fin_cases hcol <;> simp [sweepTypes, kColumnNames]
      · split at hc
        · injection hc with hc
          subst hc
          refine ⟨rfl, rfl, rfl, rfl, ?_, _, rfl⟩
          fin_cases hcol <;> simp [sweepTypes, kColumnNames]
        · exact absurd hc (by simp)

theorem detectSweeps_spec (cfg : ZoneConfig) (L : Ledger) (camId : Int)
    (history : List ZoneSample) (latest : ZoneSample)
    (hlast : history.getLast? = some latest) :
    (∀ e ∈ (detectSweeps cfg L camId history).2,
       e.camId = camId ∧ e.hasZoneIndex = false ∧ e.type ∈ sweepTypes
       ∧ (∀ m, L camId e.type = some m → latest.timestamp ≥ m + cfg.sweepCooldownMs)
       ∧ (detectSweeps cfg L camId history).1 camId e.type = some latest.timestamp
       ∧ ∃ q, e.strength = clamp01 q)
    ∧ List.Pairwise (fun a b : ZoneGestureEvent =>
        a.type = b.type → cfg.sweepCooldownMs = 0)
        (detectSweeps cfg L camId history).2
    ∧ (∀ (o : Int) (k : String),
        (detectSweeps cfg L camId history).1 o k = L o k
        ∨ (o = camId ∧ (detectSweeps cfg L camId history).1 o k = some latest.timestamp
           ∧ ∀ m, L o k = some m → latest.timestamp ≥ m + cfg.sweepCooldownMs)) := by
  unfold detectSweeps
  split
  · refine ⟨?_, ?_, ?_⟩
    · intro e he; simp at he
    · simp
    · intro o k; left; rfl
  · rw [hlast]
    have hprops : ∀ c ∈
        (([0, 1, 2, 3] : List Nat).filterMap
          (fun row => rowSweepCand cfg camId latest
            (rowIdxSeq (history.filter (fun s => decide (s.timestamp ≥
              (if latest.timestamp > cfg.sweepWindowMs then latest.timestamp - cfg.sweepWindowMs else 0)))) row) row))
        ++ (([0, 1, 2, 3] : List Nat).filterMap
          (fun col => colSweepCand cfg camId latest
            (colIdxSeq (history.filter (fun s => decide (s.timestamp ≥
              (if latest.timestamp > cfg.sweepWindowMs then latest.timestamp - cfg.sweepWindowMs else 0)))) col) col)),
        c.event.type = c.type ∧ c.cooldownMs = cfg.sweepCooldownMs
        ∧ c.event.camId = camId ∧ c.event.hasZoneIndex = false
        ∧ c.type ∈ sweepTypes ∧ ∃ q, c.event.strength = clamp01 q := by
      intro c hc
      rcases List.mem_append.mp hc with hc | hc
      · rcases List.mem_filterMap.mp hc with ⟨row, hrow, hsome⟩
        exact rowSweepCand_prop cfg camId latest _ row hrow c hsome
      · rcases List.mem_filterMap.mp hc with ⟨col, hcol, hsome⟩
        exact colSweepCand_prop cfg camId latest _ col hcol c hsome
    have hfa := fireAll_spec ZoneGestureEvent.type (fun _ => cfg.sweepCooldownMs)
      camId latest.timestamp _ L (fun c hc => ⟨(hprops c hc).1, (hprops c hc).2.1⟩)
    rcases hfa with ⟨hA, hC, hD⟩
    refine ⟨?_, hC, hD⟩
    intro e he
    rcases hA e he with ⟨⟨c, hc, rfl⟩, hgate, hfin⟩
    rcases hprops c hc with ⟨htype, _, hcam, hzi, hmem, hq⟩
    refine ⟨hcam, hzi, ?_, ?_, ?_, hq⟩
    · rw [htype]; exact hmem
    · intro m hm
      exact hgate m hm
    · exact hfin

/-! ### Per-call facts about the zone pulse pass -/

theorem pulseFold_append (cfg : ZoneConfig) (camId : Int) (ts : Nat) (values : List ℚ) :
    ∀ (idxs : List Nat) (trk : Nat → PulseTracker) (L : Ledger)
      (evs : List ZoneGestureEvent),
      idxs.foldl (pulseStep cfg camId ts values) (trk, L, evs)
        = ((idxs.foldl (pulseStep cfg camId ts values) (trk, L, [])).1,
           (idxs.foldl (pulseStep cfg camId ts values) (trk, L, [])).2.1,
           evs ++ (idxs.foldl (pulseStep cfg camId ts values) (trk, L, [])).2.2) := by
  intro idxs
  induction idxs with
  | nil => intro trk L evs; simp
  | cons i rest ih =>
    intro trk L evs
    simp only [List.foldl_cons]
    by_cases hinit : (trk i).initialized = false
    · have hs : ∀ evs0 : List ZoneGestureEvent,
          pulseStep cfg camId ts values (trk, L, evs0) i
          = (fun j => if j = i then ⟨true, values.getD i 0, 0, 0⟩ else trk j, L, evs0) := by
        intro evs0
        simp only [pulseStep]
        rw [if_pos hinit]
      rw [hs evs, hs []]
      exact ih _ L evs
    · by_cases hfire : (trk i).prevSlope > cfg.pulseSlopeThreshold
        ∧ values.getD i 0 - (trk i).prevValue ≤ -cfg.pulseSlopeThreshold
        ∧ values.getD i 0 ≥ cfg.pulseThreshold
        ∧ ts ≥ (trk i).lastTrigger + cfg.pulseCooldownMs
      · have hs : ∀ evs0 : List ZoneGestureEvent,
            pulseStep cfg camId ts values (trk, L, evs0) i
            = (fun j => if j = i then
                  ⟨true, values.getD i 0, values.getD i 0 - (trk i).prevValue, ts⟩
                else trk j,
               rememberTrigger L camId ("pulse_zone" ++ toString i) ts,
               evs0 ++ [⟨camId, "pulse_zone",
                 clamp01 ((values.getD i 0 - cfg.pulseThreshold)
                   / max 0.01 (1 - cfg.pulseThreshold)), (i : Int), true⟩]) := by
          intro evs0
          simp only [pulseStep]
          rw [if_neg hinit, if_pos hfire]
        rw [hs evs, hs []]
        rw [ih _ _ (evs ++ [_]), ih _ _ ([] ++ [_])]
        simp
      · have hs : ∀ evs0 : List ZoneGestureEvent,
            pulseStep cfg camId ts values (trk, L, evs0) i
            = (fun j => if j = i then
                  ⟨true, values.getD i 0, values.getD i 0 - (trk i).prevValue,
                   (trk i).lastTrigger⟩
                else trk j, L, evs0) := by
          intro evs0
          simp only [pulseStep]
          rw [if_neg hinit, if_neg hfire]
        rw [hs evs, hs []]
        exact ih _ L evs

theorem pulseFold_spec (cfg : ZoneConfig) (camId : Int) (ts : Nat) (values : List ℚ) :
    ∀ (idxs : List Nat) (trk : Nat → PulseTracker) (L : Ledger),
      idxs.Nodup →
      (∀ i, (trk i).initialized = false → (trk i).lastTrigger = 0) →
      (∀ e ∈ (idxs.foldl (pulseStep cfg camId ts values) (trk, L, [])).2.2,
         e.camId = camId ∧ e.type = "pulse_zone" ∧ e.hasZoneIndex = true
         ∧ (∃ i ∈ idxs, e.zoneIndex = (i : Int)
             ∧ ts ≥ (trk i).lastTrigger + cfg.pulseCooldownMs
             ∧ ((idxs.foldl (pulseStep cfg camId ts values) (trk, L, [])).1 i).lastTrigger = ts)
         ∧ (∃ q, e.strength = clamp01 q))
      ∧ List.Pairwise (fun a b : ZoneGestureEvent => a.zoneIndex ≠ b.zoneIndex)
          (idxs.foldl (pulseStep cfg camId ts values) (trk, L, [])).2.2
      ∧ (∀ i, ((idxs.foldl (pulseStep cfg camId ts values) (trk, L, [])).1 i).lastTrigger
            = (trk i).lastTrigger
          ∨ (((idxs.foldl (pulseStep cfg camId ts values) (trk, L, [])).1 i).lastTrigger = ts
             ∧ ts ≥ (trk i).lastTrigger + cfg.pulseCooldownMs))
      ∧ (∀ i, ((idxs.foldl (pulseStep cfg camId ts values) (trk, L, [])).1 i).initialized = false
          → ((idxs.foldl (pulseStep cfg camId ts values) (trk, L, [])).1 i).lastTrigger = 0)
      ∧ (∀ (o : Int) (k : String),
          (idxs.foldl (pulseStep cfg camId ts values) (trk, L, [])).2.1 o k = L o k
          ∨ (∃ i ∈ idxs, o = camId ∧ k = "pulse_zone" ++ toString i
             ∧ (idxs.foldl (pulseStep cfg camId ts values) (trk, L, [])).2.1 o k = some ts)) := by
  intro idxs
  induction idxs with
  | nil =>
    intro trk L _ hwf
    refine ⟨?_, ?_, ?_, ?_, ?_⟩
    · intro e he; simp at he
    · simp
    · intro i; left; rfl
    · simpa using hwf
    · intro o k; left; rfl
  | cons i rest ih =>
    intro trk L hnd hwf
    rcases List.nodup_cons.mp hnd with ⟨hi, hnd'⟩
    simp only [List.foldl_cons]
    by_cases hinit : (trk i).initialized = false
    · -- first sight of the cell: seed the tracker, no event
      have hs : pulseStep cfg camId ts values (trk, L, []) i
          = (fun j => if j = i then ⟨true, values.getD i 0, 0, 0⟩ else trk j, L, []) := by
        simp only [pulseStep]
        rw [if_pos hinit]
      rw [hs]
      have hwf1 : ∀ j, ((fun j => if j = i then (⟨true, values.getD i 0, 0, 0⟩ : PulseTracker)
          else trk j) j).initialized = false →
          ((fun j => if j = i then (⟨true, values.getD i 0, 0, 0⟩ : PulseTracker)
          else trk j) j).lastTrigger = 0 := by
        intro j
        by_cases hj : j = i
        · simp [hj]
        · simp only [if_neg hj]
          exact hwf j
      rcases ih _ L hnd' hwf1 with ⟨ihA, ihC, ihT, ihW, ihL⟩
      refine ⟨?_, ihC, ?_, ihW, ?_⟩
      · intro e he
        rcases ihA e he with ⟨hcam, htype, hzi, ⟨j, hj, hjz, hgate, hfin⟩, hq⟩
        have hji : ¬ j = i := fun h => hi (h ▸ hj)
        refine ⟨hcam, htype, hzi, ⟨j, List.mem_cons_of_mem _ hj, hjz, ?_, hfin⟩, hq⟩
        simpa [hji] using hgate
      · intro j
        by_cases hj : j = i
        · subst hj
          rcases ihT j with h | h
          · left
            rw [h]
            simp only [if_pos rfl]
            exact (hwf j hinit).symm
          · right
            refine ⟨h.1, ?_⟩
            have := h.2
            simp only [if_pos rfl] at this
            rw [hwf j hinit]
            omega
        · rcases ihT j with h | h
          · left; rw [h]; simp [hj]
          · right
            refine ⟨h.1, ?_⟩
            have := h.2
            simpa [hj] using this
      · intro o k
        rcases ihL o k with h | ⟨j, hj, ho, hk, hv⟩
        · left; exact h
        · right; exact ⟨j, List.mem_cons_of_mem _ hj, ho, hk, hv⟩
    · by_cases hfire : (trk i).prevSlope > cfg.pulseSlopeThreshold
        ∧ values.getD i 0 - (trk i).prevValue ≤ -cfg.pulseSlopeThreshold
        ∧ values.getD i 0 ≥ cfg.pulseThreshold
        ∧ ts ≥ (trk i).lastTrigger + cfg.pulseCooldownMs
      · -- the cell pulses
        have hs : pulseStep cfg camId ts values (trk, L, []) i
            = (fun j => if j = i then
                  ⟨true, values.getD i 0, values.getD i 0 - (trk i).prevValue, ts⟩
                else trk j,
               rememberTrigger L camId ("pulse_zone" ++ toString i) ts,
               [⟨camId, "pulse_zone",
                 clamp01 ((values.getD i 0 - cfg.pulseThreshold)
                   / max 0.01 (1 - cfg.pulseThreshold)), (i : Int), true⟩]) := by
          simp only [pulseStep]
          rw [if_neg hinit, if_pos hfire]
          simp only [List.nil_append]
        rw [hs]
        set trk1 : Nat → PulseTracker := fun j => if j = i then
            ⟨true, values.getD i 0, values.getD i 0 - (trk i).prevValue, ts⟩
          else trk j with htrk1
        set L1 := rememberTrigger L camId ("pulse_zone" ++ toString i) ts with hL1
        have hwf1 : ∀ j, (trk1 j).initialized = false → (trk1 j).lastTrigger = 0 := by
          intro j
          by_cases hj : j = i
          · simp [htrk1, hj]
          · simp only [htrk1, if_neg hj]
            exact hwf j
        have happ := pulseFold_append cfg camId ts values rest trk1 L1
          [⟨camId, "pulse_zone",
            clamp01 ((values.getD i 0 - cfg.pulseThreshold)
              / max 0.01 (1 - cfg.pulseThreshold)), (i : Int), true⟩]
        rw [happ]
        rcases ih trk1 L1 hnd' hwf1 with ⟨ihA, ihC, ihT, ihW, ihL⟩
        have htrk1i : ∀ j ∈ rest, trk1 j = trk j := by
          intro j hj
          have hji : ¬ j = i := fun h => hi (h ▸ hj)
          simp [htrk1, hji]
        have hresi : ((rest.foldl (pulseStep cfg camId ts values) (trk1, L1, [])).1 i).lastTrigger
            = ts := by
          rcases ihT i with h | h
          · rw [h, htrk1]
            simp
          · exact h.1
        refine ⟨?_, ?_, ?_, ihW, ?_⟩
        · -- events
          intro e he
          simp only [List.mem_append, List.mem_singleton] at he
          rcases he with rfl | he
          · refine ⟨rfl, rfl, rfl, ⟨i, List.mem_cons_self _ _, rfl, hfire.2.2.2, hresi⟩, _, rfl⟩
          · rcases ihA e he with ⟨hcam, htype, hzi, ⟨j, hj, hjz, hgate, hfin⟩, hq⟩
            refine ⟨hcam, htype, hzi, ⟨j, List.mem_cons_of_mem _ hj, hjz, ?_, hfin⟩, hq⟩
            rw [htrk1i j hj] at hgate
            exact hgate
        · -- pairwise distinct cells within the call
          refine List.pairwise_append.mpr ⟨List.pairwise_singleton _ _, ihC, ?_⟩
          intro a ha b hb
          simp only [List.mem_singleton] at ha
          subst ha
          rcases ihA b hb with ⟨_, _, _, ⟨j, hj, hjz, _, _⟩, _⟩
          have hji : ¬ j = i := fun h => hi (h ▸ hj)
          rw [hjz]
          simp only [ZoneGestureEvent.zoneIndex]
          intro hcontra
          exact hji (by exact_mod_cast hcontra.symm)
        · -- tracker evolution
          intro j
          by_cases hj : j = i
          · subst hj
            right
            exact ⟨hresi, hfire.2.2.2⟩
          · rcases ihT j with h | h
            · left
              rw [h, htrk1]
              simp [hj]
            · right
              refine ⟨h.1, ?_⟩
              have := h.2
              rw [htrk1] at this
              simpa [hj] using this
        · -- ledger evolution
          intro o k
          rcases ihL o k with h | ⟨j, hj, ho, hk, hv⟩
          · by_cases hok : o = camId ∧ k = "pulse_zone" ++ toString i
            · right
              refine ⟨i, List.mem_cons_self _ _, hok.1, hok.2, ?_⟩
              rw [h, hL1, hok.1, hok.2]
              exact rememberTrigger_same L camId _ ts
            · left
              rw [h, hL1]
              exact rememberTrigger_other L ts hok
          · right
            exact ⟨j, List.mem_cons_of_mem _ hj, ho, hk, hv⟩
      · -- initialized but no pulse: roll the slope forward only
        have hs : pulseStep cfg camId ts values (trk, L, []) i
            = (fun j => if j = i then
                  ⟨true, values.getD i 0, values.getD i 0 - (trk i).prevValue,
                   (trk i).lastTrigger⟩
                else trk j, L, []) := by
          simp only [pulseStep]
          rw [if_neg hinit, if_neg hfire]
        rw [hs]
        set trk1 : Nat → PulseTracker := fun j => if j = i then
            ⟨true, values.getD i 0, values.getD i 0 - (trk i).prevValue,
             (trk i).lastTrigger⟩
          else trk j with htrk1
        have hwf1 : ∀ j, (trk1 j).initialized = false → (trk1 j).lastTrigger = 0 := by
          intro j
          by_cases hj : j = i
          · simp [htrk1, hj]
          · simp only [htrk1, if_neg hj]
            exact hwf j
        rcases ih trk1 L hnd' hwf1 with ⟨ihA, ihC, ihT, ihW, ihL⟩
        have htrk1i : ∀ j ∈ rest, trk1 j = trk j := by
          intro j hj
          have hji : ¬ j = i := fun h => hi (h ▸ hj)
          simp [htrk1, hji]
        refine ⟨?_, ihC, ?_, ihW, ?_⟩
        · intro e he
          rcases ihA e he with ⟨hcam, htype, hzi, ⟨j, hj, hjz, hgate, hfin⟩, hq⟩
          refine ⟨hcam, htype, hzi, ⟨j, List.mem_cons_of_mem _ hj, hjz, ?_, hfin⟩, hq⟩
          rw [htrk1i j hj] at hgate
          exact hgate
        · intro j
          by_cases hj : j = i
          · subst hj
            rcases ihT j with h | h
            · left
              rw [h, htrk1]
              simp
            · right
              refine ⟨h.1, ?_⟩
              have := h.2
              rw [htrk1] at this
              simpa using this
          · rcases ihT j with h | h
            · left
              rw [h, htrk1]
              simp [hj]
            · right
              refine ⟨h.1, ?_⟩
              have := h.2
              rw [htrk1] at this
              simpa [hj] using this
        · intro o k
          rcases ihL o k with h | ⟨j, hj, ho, hk, hv⟩
          · left; exact h
          · right; exact ⟨j, List.mem_cons_of_mem _ hj, ho, hk, hv⟩

/-! ### Per-call facts about `updateCamera` -/

theorem dropWhile_last {α : Type} (p : α → Bool) (h : List α) (s : α)
    (hs : p s = false) :
    ((h ++ [s]).dropWhile p).getLast? = some s := by
  rw [List.dropWhile_append]
  split
  · simp [List.dropWhile_cons, hs]
  · exact List.getLast?_concat _

theorem pulseKey_not_sweepType :
    ∀ i ∈ List.range 16, ("pulse_zone" ++ toString i) ∉ sweepTypes := by
  decide

theorem pulse_zone_not_sweepType : ("pulse_zone" : String) ∉ sweepTypes := by
  decide


theorem updateCamera_spec (cfg : ZoneConfig) (st : ZoneState) (camId : Int)
    (zones : List ℚ) (ts : Nat)
    (hwf : ∀ (cam : Int) (i : Nat), (st.pulseTrackers cam i).initialized = false →
      (st.pulseTrackers cam i).lastTrigger = 0) :
    (∀ e ∈ (updateCamera cfg st camId zones ts).2,
       e.camId = camId
       ∧ (e.hasZoneIndex = false → e.type ∈ sweepTypes
           ∧ (∀ m, st.lastTriggerTimes camId e.type = some m → ts ≥ m + cfg.sweepCooldownMs)
           ∧ (updateCamera cfg st camId zones ts).1.lastTriggerTimes camId e.type = some ts)
       ∧ (e.hasZoneIndex = true → e.type = "pulse_zone"
           ∧ ∃ i : Nat, i < 16 ∧ e.zoneIndex = (i : Int)
              ∧ ts ≥ (st.pulseTrackers camId i).lastTrigger + cfg.pulseCooldownMs
              ∧ ((updateCamera cfg st camId zones ts).1.pulseTrackers camId i).lastTrigger = ts)
       ∧ (∃ q, e.strength = clamp01 q))
    ∧ List.Pairwise (fun a b : ZoneGestureEvent =>
        a.type = b.type → a.zoneIndex = b.zoneIndex → zoneCooldown cfg a = 0)
        (updateCamera cfg st camId zones ts).2
    ∧ (∀ (o : Int) (k : String), k ∈ sweepTypes →
        ((updateCamera cfg st camId zones ts).1.lastTriggerTimes o k = st.lastTriggerTimes o k
         ∨ (o = camId ∧ (updateCamera cfg st camId zones ts).1.lastTriggerTimes o k = some ts
            ∧ ∀ m, st.lastTriggerTimes o k = some m → ts ≥ m + cfg.sweepCooldownMs)))
    ∧ (∀ (cam : Int) (i : Nat),
        ((updateCamera cfg st camId zones ts).1.pulseTrackers cam i).lastTrigger
          = (st.pulseTrackers cam i).lastTrigger
        ∨ (((updateCamera cfg st camId zones ts).1.pulseTrackers cam i).lastTrigger = ts
           ∧ ts ≥ (st.pulseTrackers cam i).lastTrigger + cfg.pulseCooldownMs))
    ∧ (∀ (cam : Int) (i : Nat),
        ((updateCamera cfg st camId zones ts).1.pulseTrackers cam i).initialized = false →
        ((updateCamera cfg st camId zones ts).1.pulseTrackers cam i).lastTrigger = 0) := by
  have hlast : ((st.histories camId ++ [(⟨ts, zones⟩ : ZoneSample)]).dropWhile
      (fun s => decide (s.timestamp <
        (if ts > cfg.historyMs then ts - cfg.historyMs else 0)))).getLast?
      = some (⟨ts, zones⟩ : ZoneSample) := by
    refine dropWhile_last _ _ _ ?_
    simp only [decide_eq_false_iff_not]
    split <;> omega
  rcases detectSweeps_spec cfg st.lastTriggerTimes camId
      ((st.histories camId ++ [(⟨ts, zones⟩ : ZoneSample)]).dropWhile
        (fun s => decide (s.timestamp <
          (if ts > cfg.historyMs then ts - cfg.historyMs else 0))))
      (⟨ts, zones⟩ : ZoneSample) hlast with ⟨sA, sC, sD⟩
  rcases pulseFold_spec cfg camId ts zones (List.range 16)
      (st.pulseTrackers camId)
      (detectSweeps cfg st.lastTriggerTimes camId
        ((st.histories camId ++ [(⟨ts, zones⟩ : ZoneSample)]).dropWhile
          (fun s => decide (s.timestamp <
            (if ts > cfg.historyMs then ts - cfg.historyMs else 0))))).1
      (List.nodup_range 16) (fun i => hwf camId i) with ⟨pA, pC, pT, pW, pL⟩
  have hevs : (updateCamera cfg st camId zones ts).2
      = (detectSweeps cfg st.lastTriggerTimes camId
          ((st.histories camId ++ [(⟨ts, zones⟩ : ZoneSample)]).dropWhile
            (fun s => decide (s.timestamp <
              (if ts > cfg.historyMs then ts - cfg.historyMs else 0))))).2
        ++ ((List.range 16).foldl (pulseStep cfg camId ts zones)
            (st.pulseTrackers camId,
             (detectSweeps cfg st.lastTriggerTimes camId
               ((st.histories camId ++ [(⟨ts, zones⟩ : ZoneSample)]).dropWhile
                 (fun s => decide (s.timestamp <
                   (if ts > cfg.historyMs then ts - cfg.historyMs else 0))))).1,
             [])).2.2 := rfl
  have hL : (updateCamera cfg st camId zones ts).1.lastTriggerTimes
      = ((List.range 16).foldl (pulseStep cfg camId ts zones)
          (st.pulseTrackers camId,
           (detectSweeps cfg st.lastTriggerTimes camId
             ((st.histories camId ++ [(⟨ts, zones⟩ : ZoneSample)]).dropWhile
               (fun s => decide (s.timestamp <
                 (if ts > cfg.historyMs then ts - cfg.historyMs else 0))))).1,
           [])).2.1 := rfl
  have htrk : ∀ c, (updateCamera cfg st camId zones ts).1.pulseTrackers c
      = if c = camId then
          ((List.range 16).foldl (pulseStep cfg camId ts zones)
            (st.pulseTrackers camId,
             (detectSweeps cfg st.lastTriggerTimes camId
               ((st.histories camId ++ [(⟨ts, zones⟩ : ZoneSample)]).dropWhile
                 (fun s => decide (s.timestamp <
                   (if ts > cfg.historyMs then ts - cfg.historyMs else 0))))).1,
             [])).1
        else st.pulseTrackers c := fun c => rfl
  -- the pulse pass leaves every sweep-typed ledger key to the sweep pass
  have hLsweepkey : ∀ (o : Int) (k : String), k ∈ sweepTypes →
      (updateCamera cfg st camId zones ts).1.lastTriggerTimes o k
        = (detectSweeps cfg st.lastTriggerTimes camId
            ((st.histories camId ++ [(⟨ts, zones⟩ : ZoneSample)]).dropWhile
              (fun s => decide (s.timestamp <
                (if ts > cfg.historyMs then ts - cfg.historyMs else 0))))).1 o k := by
    intro o k hk
    rw [hL]
    rcases pL o k with h | ⟨i, hi, _, hki, _⟩
    · exact h
    · exact absurd hk (by rw [hki]; exact pulseKey_not_sweepType i hi)
  have htrkcam : (updateCamera cfg st camId zones ts).1.pulseTrackers camId
      = ((List.range 16).foldl (pulseStep cfg camId ts zones)
          (st.pulseTrackers camId,
           (detectSweeps cfg st.lastTriggerTimes camId
             ((st.histories camId ++ [(⟨ts, zones⟩ : ZoneSample)]).dropWhile
               (fun s => decide (s.timestamp <
                 (if ts > cfg.historyMs then ts - cfg.historyMs else 0))))).1,
           [])).1 := by
    rw [htrk camId, if_pos rfl]
  refine ⟨?_, ?_, ?_, ?_, ?_⟩
  · -- every emitted event
    intro e he
    rw [hevs] at he
    rcases List.mem_append.mp he with hsw | hpl
    · rcases sA e hsw with ⟨hcam, hzi, htyp, hgate, hfin, hq⟩
      refine ⟨hcam, ?_, ?_, hq⟩
      · intro _
        refine ⟨htyp, hgate, ?_⟩
        rw [hLsweepkey camId e.type htyp]
        exact hfin
      · intro hcontra
        rw [hzi] at hcontra
        exact absurd hcontra (by simp)
    · rcases pA e hpl with ⟨hcam, htyp, hzi, ⟨i, hi, hiz, hgate, hfin⟩, hq⟩
      refine ⟨hcam, ?_, ?_, hq⟩
      · intro hcontra
        rw [hzi] at hcontra
        exact absurd hcontra (by simp)
      · intro _
        refine ⟨htyp, i, List.mem_range.mp hi, hiz, hgate, ?_⟩
        rw [htrkcam]
        exact hfin
  · -- pairwise within the call
    rw [hevs]
    refine List.pairwise_append.mpr ⟨?_, ?_, ?_⟩
    · -- two sweep events of this call
      refine List.Pairwise.imp_of_mem ?_ sC
      intro a b ha hb hab
      intro htype _
      rcases sA a ha with ⟨_, hziA, _, _, _, _⟩
      have hcd := hab htype
      simp only [zoneCooldown, hziA]
      simpa using hcd
    · -- two pulse events of this call: distinct cells
      refine pC.imp ?_
      intro a b hab
      intro _ hz
      exact absurd hz hab
    · -- a sweep and a pulse of this call never share a type
      intro a ha b hb
      rcases sA a ha with ⟨_, _, htypA, _, _, _⟩
      rcases pA b hb with ⟨_, htypB, _, _, _⟩
      intro htype _
      rw [htype, htypB] at htypA
      exact absurd htypA pulse_zone_not_sweepType
  · -- sweep-keyed ledger evolution
    intro o k hk
    rw [hLsweepkey o k hk]
    exact sD o k
  · -- trackers evolution
    intro cam i
    by_cases hc : cam = camId
    · subst hc
      rw [htrkcam]
      exact pT i
    · rw [htrk cam, if_neg hc]
      left
      rfl
  · -- tracker well-formedness survives
    intro cam i
    by_cases hc : cam = camId
    · subst hc
      rw [htrkcam]
      exact pW i
    · rw [htrk cam, if_neg hc]
      exact hwf cam i


/-! ### Per-call and trace facts about the global detector -/

theorem globalUpdate_spec (cfg : GlobalConfig) (st : GlobalState) (gm : ℚ)
    (av : Int) (ts : Nat) :
    (∀ e ∈ (globalUpdate cfg st gm av ts).2,
       (e.type = "eruption" → ts ≥ st.lastEruption + cfg.eruptionCooldownMs)
       ∧ (e.type = "stillness" → ts ≥ st.lastStillness + cfg.stillnessCooldownMs)
       ∧ ∃ q, e.strength = clamp01 q)
    ∧ ((globalUpdate cfg st gm av ts).1.lastEruption = st.lastEruption
        ∨ ((globalUpdate cfg st gm av ts).1.lastEruption = ts
           ∧ ts ≥ st.lastEruption + cfg.eruptionCooldownMs))
    ∧ ((globalUpdate cfg st gm av ts).1.lastStillness = st.lastStillness
        ∨ ((globalUpdate cfg st gm av ts).1.lastStillness = ts
           ∧ ts ≥ st.lastStillness + cfg.stillnessCooldownMs)) := by
  unfold globalUpdate
  simp only []
  split
  next hstill =>
    refine ⟨?_, ?_, ?_⟩
    · intro e he
      simp only [List.mem_append, List.mem_singleton] at he
      rcases he with he | rfl
      · split at he
        next herupt =>
          simp only [List.mem_singleton] at he
          subst he
          exact ⟨fun _ => herupt.2.2.2.2, fun hc => by simp at hc, _, rfl⟩
        next => simp at he
      · exact ⟨fun hc => by simp at hc, fun _ => hstill.2.2, _, rfl⟩
    · split
      next herupt => exact Or.inr ⟨rfl, herupt.2.2.2.2⟩
      next => exact Or.inl rfl
    · exact Or.inr ⟨rfl, hstill.2.2⟩
  next hstill =>
    refine ⟨?_, ?_, ?_⟩
    · intro e he
      split at he
      next herupt =>
        simp only [List.mem_singleton] at he
        subst he
        exact ⟨fun _ => herupt.2.2.2.2, fun hc => by simp at hc, _, rfl⟩
      next => simp at he
    · split
      next herupt => exact Or.inr ⟨rfl, herupt.2.2.2.2⟩
      next => exact Or.inl rfl
    · exact Or.inl rfl

theorem runGlobalAux_future (cfg : GlobalConfig) :
    ∀ (calls : List GlobalCall) (st : GlobalState),
      ∀ p ∈ runGlobalAux cfg st calls,
        (p.2.type = "eruption" → p.1 ≥ st.lastEruption + cfg.eruptionCooldownMs)
        ∧ (p.2.type = "stillness" → p.1 ≥ st.lastStillness + cfg.stillnessCooldownMs) := by
  intro calls
  induction calls with
  | nil => intro st p hp; simp [runGlobalAux] at hp
  | cons call rest ih =>
    intro st p hp
    rcases globalUpdate_spec cfg st call.globalMotion call.activeVoices call.timestampMs with
      ⟨gA, gE, gS⟩
    simp only [runGlobalAux, List.mem_append, List.mem_map] at hp
    rcases hp with ⟨e, he, rfl⟩ | hp
    · rcases gA e he with ⟨h1, h2, _⟩
      exact ⟨h1, h2⟩
    · have := ih _ p hp
      constructor
      · intro ht
        rcases gE with h | ⟨hv, hg⟩
        · have h1 := this.1 ht
          rw [h] at h1
          exact h1
        · have h1 := this.1 ht
          rw [hv] at h1
          omega
      · intro ht
        rcases gS with h | ⟨hv, hg⟩
        · have h1 := this.2 ht
          rw [h] at h1
          exact h1
        · have h1 := this.2 ht
          rw [hv] at h1
          omega

/-! ### The Scenario E stillness trace, parametrically in the start time -/

theorem eruptionSums_go (w : Nat) (q : ℚ) :
    ∀ (l : List GSample), (∀ s ∈ l, s.globalMotion = q) →
    ∀ (a1 : ℚ) (n1 : Nat) (a2 : ℚ) (n2 : Nat),
      (l.foldl
        (fun acc s =>
          if s.timestamp < w then
            (acc.1 + s.globalMotion, acc.2.1 + 1, acc.2.2.1, acc.2.2.2)
          else
            (acc.1, acc.2.1, acc.2.2.1 + s.globalMotion, acc.2.2.2 + 1))
        (a1, n1, a2, n2))
      = (a1 + q * (l.countP (fun s => decide (s.timestamp < w))),
         n1 + l.countP (fun s => decide (s.timestamp < w)),
         a2 + q * (l.countP (fun s => ! decide (s.timestamp < w))),
         n2 + l.countP (fun s => ! decide (s.timestamp < w))) := by
  intro l
  induction l with
  | nil => intro h a1 n1 a2 n2; simp
  | cons s l ih =>
    intro h a1 n1 a2 n2
    have hq : s.globalMotion = q := h s (List.mem_cons_self s l)
    have hrest : ∀ x ∈ l, x.globalMotion = q := fun x hx => h x (List.mem_cons_of_mem s hx)
    by_cases hw : s.timestamp < w
    · simp only [List.foldl_cons, if_pos hw, hq, List.countP_cons, hw, decide_True,
        Bool.not_true, if_true, if_false]
      rw [ih hrest]
      refine congrArg₂ Prod.mk ?_ (congrArg₂ Prod.mk ?_ rfl)
      · push_cast; ring
      · omega
    · simp only [List.foldl_cons, if_neg hw, hq, List.countP_cons, hw, decide_False,
        Bool.not_false, if_true, if_false]
      rw [ih hrest]
      refine congrArg₂ Prod.mk rfl (congrArg₂ Prod.mk rfl (congrArg₂ Prod.mk ?_ ?_))
      · push_cast; ring
      · omega

theorem eruptionSums_const (w : Nat) (q : ℚ) (l : List GSample)
    (h : ∀ s ∈ l, s.globalMotion = q) :
    eruptionSums w l
      = (q * (l.countP (fun s => decide (s.timestamp < w))),
         l.countP (fun s => decide (s.timestamp < w)),
         q * (l.countP (fun s => ! decide (s.timestamp < w))),
         l.countP (fun s => ! decide (s.timestamp < w))) := by
  unfold eruptionSums
  rw [eruptionSums_go w q l h 0 0 0 0]
  simp

theorem stillTrim (t0 k : Nat) (hk : 300 * k ≤ 5000) :
    trimHistory GlobalConfig.default
      ((List.range (k+1)).map (stillSample t0)) (t0 + 300 * k)
      = (List.range (k+1)).map (stillSample t0) := by
  unfold trimHistory
  rw [List.range_succ_eq_map, List.map_cons]
  rw [List.dropWhile_cons]
  have hp : ¬ ((stillSample t0 0).timestamp <
      (if t0 + 300 * k > GlobalConfig.default.historyMs
        then t0 + 300 * k - GlobalConfig.default.historyMs else 0)) := by
    have hh : GlobalConfig.default.historyMs = 5000 := rfl
    rw [hh]
    show ¬ (t0 + 300 * 0 < _)
    split <;> omega
  simp [hp]

theorem stillRecentAvg (t0 k : Nat) :
    (eruptionAverages GlobalConfig.default ((List.range (k+1)).map (stillSample t0))
      (t0 + 300 * k)).2.2.1 = (0.1 : ℚ) := by
  have hmot : ∀ s ∈ (List.range (k+1)).map (stillSample t0), s.globalMotion = (0.1 : ℚ) := by
    intro s hs
    rw [List.mem_map] at hs
    obtain ⟨j, _, rfl⟩ := hs
    rfl
  unfold eruptionAverages
  simp only [show GlobalConfig.default.eruptionWindowMs = 1200 from rfl]
  rw [eruptionSums_const _ _ _ hmot]
  simp only []
  split <;>
  · split
    next hpos =>
      exact mul_div_cancel_right₀ _ (Nat.cast_ne_zero.mpr (Nat.pos_iff_ne_zero.mp hpos))
    next hneg =>
      exfalso
      apply hneg
      apply List.countP_pos_iff.mpr
      refine ⟨stillSample t0 k,
        List.mem_map.mpr ⟨k, List.mem_range.mpr (Nat.lt_succ_self k), rfl⟩, ?_⟩
      simp only [Bool.not_eq_true', decide_eq_false_iff_not]
      show ¬ (t0 + 300 * k < _)
      omega

theorem stillLatch (t0 k : Nat) (h0 : 0 < t0) :
    stillnessLatch GlobalConfig.default (stillState t0 k).stillnessStart
      (0.1 : ℚ) 4 (t0 + 300 * k) = t0 := by
  unfold stillnessLatch
  rw [if_pos (show (0.1 : ℚ) ≤ GlobalConfig.default.stillnessMotionThreshold
      ∧ (4 : Int) ≥ GlobalConfig.default.stillnessMinVoices from by
    constructor <;> decide)]
  by_cases hk0 : k = 0
  · subst hk0; simp [stillState]
  · simp [stillState, hk0, h0.ne']

theorem stillCat (t0 k : Nat) :
    (stillState t0 k).history ++ [(⟨t0 + 300 * k, (0.1 : ℚ), 4⟩ : GSample)]
      = (List.range (k+1)).map (stillSample t0) := by
  simp only [stillState]
  rw [List.range_succ, List.map_append]
  rfl

theorem stillStepQuiet (t0 k : Nat) (h0 : 0 < t0) (hk : k ≤ 10)
    (hnf : 300 * k < 3000 ∨ t0 + 300 * k < 6000) :
    globalUpdate GlobalConfig.default (stillState t0 k) (0.1 : ℚ) 4 (t0 + 300 * k)
      = (stillState t0 (k+1), []) := by
  unfold globalUpdate
  simp only []
  rw [stillCat t0 k, stillTrim t0 k (by omega), stillLatch t0 k h0,
    stillRecentAvg t0 k]
  simp only [stillState, Nat.succ_ne_zero, if_false,
    show GlobalConfig.default.stillnessDurationMs = 3000 from rfl,
    show GlobalConfig.default.stillnessCooldownMs = 6000 from rfl]
  split
  next hs => exfalso; omega
  next hs =>
    split
    next hb => exact absurd hb.2.2.1 (by decide)
    next hb => rfl

theorem stillStepFire (t0 : Nat) (h3 : 3000 ≤ t0) :
    (globalUpdate GlobalConfig.default (stillState t0 10) (0.1 : ℚ) 4 (t0 + 300 * 10)).2
      = [⟨"stillness", (76/165 : ℚ)⟩] := by
  unfold globalUpdate
  simp only []
  rw [stillCat t0 10, stillTrim t0 10 (by omega), stillLatch t0 10 (by omega),
    stillRecentAvg t0 10]
  simp only [stillState,
    show GlobalConfig.default.stillnessDurationMs = 3000 from rfl,
    show GlobalConfig.default.stillnessCooldownMs = 6000 from rfl]
  split
  next hs =>
    split
    next hb => exact absurd hb.2.2.1 (by decide)
    next hb =>
      simp only [List.nil_append]
      decide
  next hs => exfalso; omega

theorem stillCallsFrom_cons (t0 i : Nat) (h : i < 11) :
    stillCallsFrom t0 i = ⟨0.1, 4, t0 + 300 * i⟩ :: stillCallsFrom t0 (i + 1) := by
  unfold stillCallsFrom
  have h11 : 11 - i = (11 - (i+1)) + 1 := by omega
  rw [h11, List.range_succ_eq_map, List.map_cons, List.map_map]
  refine congrArg₂ List.cons rfl ?_
  apply List.map_congr_left
  intro j hj
  simp only [Function.comp]
  congr 1
  omega

theorem stillRunQuiet (t0 : Nat) (h0 : 0 < t0) (hlt : t0 + 3000 < 6000) :
    ∀ n, n ≤ 11 →
      runGlobalAux GlobalConfig.default (stillState t0 (11 - n)) (stillCallsFrom t0 (11 - n))
        = [] := by
  intro n
  induction n with
  | zero =>
    intro _
    simp [stillCallsFrom, runGlobalAux]
  | succ n ih =>
    intro hn
    rw [stillCallsFrom_cons t0 _ (by omega)]
    simp only [runGlobalAux]
    rw [stillStepQuiet t0 (11 - (n+1)) h0 (by omega) (Or.inr (by omega))]
    have h1 : (11 - (n+1)) + 1 = 11 - n := by omega
    rw [h1]
    simp only [List.map_nil, List.nil_append]
    exact ih (by omega)

theorem stillRunFire (t0 : Nat) (h3 : 3000 ≤ t0) :
    ∀ n, n ≤ 11 →
      runGlobalAux GlobalConfig.default (stillState t0 (11 - n)) (stillCallsFrom t0 (11 - n))
        = if n = 0 then [] else [(t0 + 300 * 10, ⟨"stillness", (76/165 : ℚ)⟩)] := by
  intro n
  induction n with
  | zero =>
    intro _
    simp [stillCallsFrom, runGlobalAux]
  | succ n ih =>
    intro hn
    by_cases hz : n = 0
    · subst hz
      have h10 : 11 - (0+1) = 10 := by norm_num
      rw [h10, stillCallsFrom_cons t0 10 (by omega)]
      simp only [runGlobalAux]
      rw [stillStepFire t0 h3]
      simp [stillCallsFrom, runGlobalAux]
    · rw [stillCallsFrom_cons t0 _ (by omega)]
      simp only [runGlobalAux]
      rw [stillStepQuiet t0 (11 - (n+1)) (by omega) (by omega) (Or.inl (by omega))]
      have h1 : (11 - (n+1)) + 1 = 11 - n := by omega
      rw [h1]
      simp only [List.map_nil, List.nil_append]
      rw [ih (by omega)]
      simp [hz]

theorem stillCalls_eq_from (t0 : Nat) : stillCalls t0 = stillCallsFrom t0 0 := by
  unfold stillCalls stillCallsFrom
  simp

/-! ### Trace facts about a sequence of `updateCamera` calls -/

theorem runZoneAux_future (cfg : ZoneConfig) :
    ∀ (calls : List ZoneCall) (st : ZoneState),
      (∀ (cam : Int) (i : Nat), (st.pulseTrackers cam i).initialized = false →
        (st.pulseTrackers cam i).lastTrigger = 0) →
      ∀ p ∈ runZoneAux cfg st calls,
        (p.2.hasZoneIndex = false → p.2.type ∈ sweepTypes
          ∧ ∀ m, st.lastTriggerTimes p.2.camId p.2.type = some m →
              p.1 ≥ m + cfg.sweepCooldownMs)
        ∧ (p.2.hasZoneIndex = true → p.2.type = "pulse_zone"
          ∧ ∃ i : Nat, i < 16 ∧ p.2.zoneIndex = (i : Int)
              ∧ p.1 ≥ (st.pulseTrackers p.2.camId i).lastTrigger + cfg.pulseCooldownMs) := by
  intro calls
  induction calls with
  | nil => intro st _ p hp; simp [runZoneAux] at hp
  | cons call rest ih =>
    intro st hwf p hp
    rcases updateCamera_spec cfg st call.camId call.zones call.timestampMs hwf with
      ⟨uA, _, uD, uT, uW⟩
    simp only [runZoneAux, List.mem_append, List.mem_map] at hp
    rcases hp with ⟨e, he, rfl⟩ | hp
    · rcases uA e he with ⟨hcam, hsw, hpu, _⟩
      constructor
      · intro hz
        rcases hsw hz with ⟨htyp, hgate, _⟩
        refine ⟨htyp, ?_⟩
        intro m hm
        rw [hcam] at hm
        exact hgate m hm
      · intro hz
        rcases hpu hz with ⟨htyp, i, hi, hiz, hgate, _⟩
        refine ⟨htyp, i, hi, hiz, ?_⟩
        rw [hcam]
        exact hgate
    · have := ih _ uW p hp
      constructor
      · intro hz
        rcases (this.1 hz) with ⟨htyp, hgate⟩
        refine ⟨htyp, ?_⟩
        intro m hm
        rcases uD p.2.camId p.2.type htyp with h | ⟨_, hv, hg⟩
        · exact hgate m (by rw [h]; exact hm)
        · have h1 := hgate call.timestampMs hv
          have h2 := hg m hm
          omega
      · intro hz
        rcases (this.2 hz) with ⟨htyp, i, hi, hiz, hgate⟩
        refine ⟨htyp, i, hi, hiz, ?_⟩
        rcases uT p.2.camId i with h | ⟨hv, hg⟩
        · rw [h] at hgate
          exact hgate
        · rw [hv] at hgate
          omega

theorem runZoneAux_pairwise (cfg : ZoneConfig) :
    ∀ (calls : List ZoneCall) (st : ZoneState),
      (∀ (cam : Int) (i : Nat), (st.pulseTrackers cam i).initialized = false →
        (st.pulseTrackers cam i).lastTrigger = 0) →
      List.Pairwise (fun a b : Nat × ZoneGestureEvent =>
        a.2.camId = b.2.camId → a.2.type = b.2.type → a.2.zoneIndex = b.2.zoneIndex →
          b.1 ≥ a.1 + zoneCooldown cfg a.2) (runZoneAux cfg st calls) := by
  intro calls
  induction calls with
  | nil => intro st _; simp [runZoneAux]
  | cons call rest ih =>
    intro st hwf
    rcases updateCamera_spec cfg st call.camId call.zones call.timestampMs hwf with
      ⟨uA, uC, _, _, uW⟩
    simp only [runZoneAux]
    refine List.pairwise_append.mpr ⟨?_, ih _ uW, ?_⟩
    · refine List.Pairwise.map _ ?_ uC
      intro a b hab
      intro _ htype hzidx
      have h0 : zoneCooldown cfg a = 0 := hab htype hzidx
      show call.timestampMs ≥ call.timestampMs + zoneCooldown cfg a
      omega
    · intro a ha b hb
      rcases List.mem_map.mp ha with ⟨e, he, rfl⟩
      intro hcam htype hzidx
      have hcam' : e.camId = b.2.camId := hcam
      have htype' : e.type = b.2.type := htype
      have hzidx' : e.zoneIndex = b.2.zoneIndex := hzidx
      rcases uA e he with ⟨hecam, hsw, hpu, _⟩
      have hfut := runZoneAux_future cfg rest _ uW b hb
      cases hz : e.hasZoneIndex with
      | false =>
        rcases hsw hz with ⟨htyp, _, hfin⟩
        -- the later same-key event must also be a sweep
        have hbz : b.2.hasZoneIndex = false := by
          cases hbz : b.2.hasZoneIndex with
          | false => rfl
          | true =>
            rcases hfut.2 hbz with ⟨hbtyp, _⟩
            rw [htype', hbtyp] at htyp
            exact absurd htyp pulse_zone_not_sweepType
        rcases hfut.1 hbz with ⟨_, hgate⟩
        have hkey : (updateCamera cfg st call.camId call.zones call.timestampMs).1.lastTriggerTimes
            b.2.camId b.2.type = some call.timestampMs := by
          rw [← hcam', ← htype', hecam]
          exact hfin
        have := hgate call.timestampMs hkey
        show b.1 ≥ call.timestampMs + zoneCooldown cfg e
        simp only [zoneCooldown, hz]
        simpa using this
      | true =>
        rcases hpu hz with ⟨htyp, i, hi, hiz, _, hfin⟩
        have hbz : b.2.hasZoneIndex = true := by
          cases hbz : b.2.hasZoneIndex with
          | true => rfl
          | false =>
            rcases hfut.1 hbz with ⟨hbtyp, _⟩
            rw [← htype', htyp] at hbtyp
            exact absurd hbtyp pulse_zone_not_sweepType
        rcases hfut.2 hbz with ⟨_, j, hj, hjz, hgate⟩
        have hij : i = j := by
          have : (i : Int) = (j : Int) := by
            rw [← hiz, hzidx', hjz]
          exact_mod_cast this
        have htrk : ((updateCamera cfg st call.camId call.zones call.timestampMs).1.pulseTrackers
            b.2.camId j).lastTrigger = call.timestampMs := by
          rw [← hcam', hecam, ← hij]
          exact hfin
        rw [htrk] at hgate
        show b.1 ≥ call.timestampMs + zoneCooldown cfg e
        unfold zoneCooldown
        rw [hz]
        simpa using hgate


/-! ### Strengths along full runs -/

theorem runVoiceAux_strengths (len3 : Vec3 → ℚ) (cfg : VoiceConfig) :
    ∀ (calls : List VoiceCall) (L : Ledger),
      ∀ p ∈ runVoiceAux len3 cfg L calls, ∃ q, p.2.strength = clamp01 q := by
  intro calls
  induction calls with
  | nil => intro L p hp; simp [runVoiceAux] at hp
  | cons call rest ih =>
    intro L p hp
    simp only [runVoiceAux, List.mem_append, List.mem_map] at hp
    rcases hp with ⟨e, he, rfl⟩ | hp
    · exact ((updateVoice_spec len3 cfg L call.voiceId call.samples).1 e he).2.2.2
    · exact ih _ p hp

theorem runZoneAux_strengths (cfg : ZoneConfig) :
    ∀ (calls : List ZoneCall) (st : ZoneState),
      (∀ (cam : Int) (i : Nat), (st.pulseTrackers cam i).initialized = false →
        (st.pulseTrackers cam i).lastTrigger = 0) →
      ∀ p ∈ runZoneAux cfg st calls, ∃ q, p.2.strength = clamp01 q := by
  intro calls
  induction calls with
  | nil => intro st _ p hp; simp [runZoneAux] at hp
  | cons call rest ih =>
    intro st hwf p hp
    rcases updateCamera_spec cfg st call.camId call.zones call.timestampMs hwf with
      ⟨uA, _, _, _, uW⟩
    simp only [runZoneAux, List.mem_append, List.mem_map] at hp
    rcases hp with ⟨e, he, rfl⟩ | hp
    · exact (uA e he).2.2.2
    · exact ih _ uW p hp

theorem runGlobalAux_strengths (cfg : GlobalConfig) :
    ∀ (calls : List GlobalCall) (st : GlobalState),
      ∀ p ∈ runGlobalAux cfg st calls, ∃ q, p.2.strength = clamp01 q := by
  intro calls
  induction calls with
  | nil => intro st p hp; simp [runGlobalAux] at hp
  | cons call rest ih =>
    intro st p hp
    simp only [runGlobalAux, List.mem_append, List.mem_map] at hp
    rcases hp with ⟨e, he, rfl⟩ | hp
    · exact ((globalUpdate_spec cfg st call.globalMotion call.activeVoices
        call.timestampMs).1 e he).2.2
    · exact ih _ p hp

/-! ### The claims -/

/-- C1, counterexample to the claim as stated.  The claim keys the cooldown
by (owner id, gesture type) alone; but the pulse cooldown of
`ZoneGestureDetector::detectPulses` is kept per cell
(`tracker.lastTrigger`), so two cells of the same camera that rise and fall
together emit two events of the same type `"pulse_zone"` for the same owner
at the very same timestamp (1200), closer than the configured
`pulseCooldownMs = 900`. -/
theorem claim_C1_counterexample :
    runZone ZoneConfig.default twinPulseCalls
      = [(1200, ⟨0, "pulse_zone", 9/65, 0, true⟩),
         (1200, ⟨0, "pulse_zone", 9/65, 1, true⟩)]
    ∧ (1200 : Nat) < 1200 + ZoneConfig.default.pulseCooldownMs := by
  constructor
  · decide
  · decide

/-- C1 as amended: the cooldown key of a pulse event additionally carries
its grid cell.  For every sequence of detector update calls, two voice
events with the same (voiceId, type) are separated by at least that type's
cooldown, and two zone events with the same (camId, type, zoneIndex) are
separated by at least the sweep cooldown (sweeps) resp. the pulse cooldown
(pulses); sweep events carry zoneIndex -1, pulse events their cell, so sweep
keys and pulse keys never collide. -/
theorem claim_C1_amended :
    (∀ (len3 : Vec3 → ℚ) (cfg : VoiceConfig) (calls : List VoiceCall),
      List.Pairwise (fun a b : Nat × VoiceGestureEvent =>
        a.2.voiceId = b.2.voiceId → a.2.type = b.2.type →
          b.1 ≥ a.1 + voiceCooldown cfg a.2.type) (runVoice len3 cfg calls))
    ∧ (∀ (cfg : ZoneConfig) (calls : List ZoneCall),
      List.Pairwise (fun a b : Nat × ZoneGestureEvent =>
        a.2.camId = b.2.camId → a.2.type = b.2.type → a.2.zoneIndex = b.2.zoneIndex →
          b.1 ≥ a.1 + zoneCooldown cfg a.2) (runZone cfg calls)) := by
  constructor
  · intro len3 cfg calls
    exact runVoiceAux_pairwise len3 cfg calls emptyLedger
  · intro cfg calls
    exact runZoneAux_pairwise cfg calls ZoneState.init (fun _ _ _ => rfl)

/-- C2: every event emitted by any of the three detectors carries a strength
in [0, 1] — every emission site clamps with `clamp01`, so this holds for
every input sequence fed to a fresh detector (and in fact from any state and
any configuration). -/
theorem claim_C2_strengths_clamped :
    (∀ (len3 : Vec3 → ℚ) (cfg : VoiceConfig) (calls : List VoiceCall),
      ∀ p ∈ runVoice len3 cfg calls, 0 ≤ p.2.strength ∧ p.2.strength ≤ 1)
    ∧ (∀ (cfg : ZoneConfig) (calls : List ZoneCall),
      ∀ p ∈ runZone cfg calls, 0 ≤ p.2.strength ∧ p.2.strength ≤ 1)
    ∧ (∀ (cfg : GlobalConfig) (calls : List GlobalCall),
      ∀ p ∈ runGlobal cfg calls, 0 ≤ p.2.strength ∧ p.2.strength ≤ 1) := by
  refine ⟨?_, ?_, ?_⟩
  · intro len3 cfg calls p hp
    rcases runVoiceAux_strengths len3 cfg calls emptyLedger p hp with ⟨q, hq⟩
    rw [hq]
    exact ⟨clamp01_nonneg q, clamp01_le_one q⟩
  · intro cfg calls p hp
    rcases runZoneAux_strengths cfg calls ZoneState.init (fun _ _ _ => rfl) p hp with ⟨q, hq⟩
    rw [hq]
    exact ⟨clamp01_nonneg q, clamp01_le_one q⟩
  · intro cfg calls p hp
    rcases runGlobalAux_strengths cfg calls GlobalState.init p hp with ⟨q, hq⟩
    rw [hq]
    exact ⟨clamp01_nonneg q, clamp01_le_one q⟩

/-- Witness for C2 at concrete emitted events of each detector. -/
theorem claim_C2_strengths_clamped_witness :
    (0 ≤ ((1:ℚ)) ∧ ((1:ℚ)) ≤ 1)
    ∧ (0 ≤ ((9:ℚ)/65) ∧ ((9:ℚ)/65) ≤ 1)
    ∧ (0 ≤ ((1:ℚ)/3) ∧ ((1:ℚ)/3) ≤ 1) :=
  ⟨claim_C2_strengths_clamped.1 euclidLen VoiceConfig.default [⟨1, raiseSamples⟩]
     (500, ⟨1, "raise", 1, 3/10⟩) (by decide),
   claim_C2_strengths_clamped.2.1 ZoneConfig.default twinPulseCalls
     (1200, ⟨0, "pulse_zone", 9/65, 0, true⟩) (by decide),
   claim_C2_strengths_clamped.2.2 GlobalConfig.default eruptCalls
     (5400, ⟨"eruption", 1/3⟩) (by decide)⟩

/-- C4, counterexample to the claim as stated.  With cell 0 running
0.1 → 0.5 → 0.3 (slopes +0.4 then -0.2) under the default thresholds
(pulseThreshold 0.35, pulseSlopeThreshold 0.05) and timestamps past the
initial pulse cooldown (1200 ≥ 900), the run emits NO event at all: the
peak test runs at the sample after the peak and compares that sample's own
value (0.3) — not the peak value 0.5 — against pulseThreshold, and
0.3 < 0.35. -/
theorem claim_C4_counterexample :
    runZone ZoneConfig.default pulseCallsSpec = []
    ∧ ZoneConfig.default.pulseThreshold = 0.35
    ∧ ZoneConfig.default.pulseSlopeThreshold = 0.05
    ∧ 1200 ≥ ZoneConfig.default.pulseCooldownMs := by
  refine ⟨?_, ?_, ?_, ?_⟩ <;> decide

/-- C4 as amended: the pulse fires at the first post-peak sample and uses
that sample's value.  The spec's sequence 0.1 → 0.5 → 0.3 therefore emits no
pulse (0.3 < pulseThreshold); raising the post-peak value to 0.4 (still a
fall of magnitude ≥ pulseSlopeThreshold) emits exactly one pulse for the
cell, at the third sample, with strength
clamp01((0.4 − 0.35) / 0.65) = 1/13. -/
theorem claim_C4_amended :
    runZone ZoneConfig.default pulseCallsSpec = []
    ∧ runZone ZoneConfig.default pulseCallsFiring
        = [(1200, ⟨0, "pulse_zone", 1/13, 0, true⟩)] := by
  constructor <;> decide

/-- C5, counterexample to the claim as stated.  Quiet input (motion 0.1 ≤
0.22, activeCount 4 ≥ 3) held from t = 0 through t = 3000 at 300 ms ticks
emits NO stillness event at the 3-second mark (or ever, in this run):
`lastStillness` starts at 0, so the first stillness is gated until
`stillnessCooldownMs` = 6000 ms (claim C10), and the t = 0 tick is absorbed
by the 0-as-unset sentinel of the timer. -/
theorem claim_C5_counterexample :
    runGlobal GlobalConfig.default (stillCalls 0) = []
    ∧ GlobalConfig.default.stillnessDurationMs = 3000
    ∧ GlobalConfig.default.stillnessCooldownMs = 6000 := by
  refine ⟨?_, ?_, ?_⟩ <;> decide

/-- C5 as amended: `lastStillness` starts at 0, so the stillness rule is
gated until `stillnessCooldownMs` = 6000 ms past boot (claim C10), and the
claim holds exactly when the quiet period's 3-second mark clears that
gate.  For EVERY start time t0 whose mark does (t0 + 3000 ≥ 6000, i.e.
t0 ≥ 3000), holding globalMotion 0.1 (≤ 0.22) with activeCount 4 (≥ 3)
for 3000 ms emits exactly one stillness event, at the 3-second mark
t0 + 3000, with strength clamp01(0.6·(1 − 0.1/0.22) + 0.4·((4−3)/3)) =
76/165, and none before it; for every positive start time with t0 < 3000
the run emits nothing at all (and t0 = 0, the counterexample, additionally
loses its first tick to the 0-as-unset sentinel of the timer). -/
theorem claim_C5_amended (t0 : Nat) :
    (3000 ≤ t0 → runGlobal GlobalConfig.default (stillCalls t0)
        = [(t0 + 3000, ⟨"stillness", (76/165 : ℚ)⟩)])
    ∧ (0 < t0 → t0 < 3000 → runGlobal GlobalConfig.default (stillCalls t0) = [])
    ∧ GlobalConfig.default.stillnessDurationMs = 3000
    ∧ GlobalConfig.default.stillnessCooldownMs = 6000 := by
  refine ⟨?_, ?_, rfl, rfl⟩
  · intro h3
    unfold runGlobal
    rw [show GlobalState.init = stillState t0 0 from rfl, stillCalls_eq_from t0]
    have h := stillRunFire t0 h3 11 (le_refl 11)
    norm_num at h
    exact h
  · intro h0 hlt
    unfold runGlobal
    rw [show GlobalState.init = stillState t0 0 from rfl, stillCalls_eq_from t0]
    have h := stillRunQuiet t0 h0 (by omega) 11 (le_refl 11)
    norm_num at h
    exact h

/-- Witness for C5 as amended, at the concrete start times t0 = 4000 (the
mark 7000 clears the gate: one stillness at 7000) and t0 = 2000 (the mark
5000 does not: no event at all). -/
theorem claim_C5_amended_witness :
    runGlobal GlobalConfig.default (stillCalls 4000)
        = [(7000, ⟨"stillness", (76/165 : ℚ)⟩)]
    ∧ runGlobal GlobalConfig.default (stillCalls 2000) = [] :=
  ⟨by simpa using (claim_C5_amended 4000).1 (by norm_num),
   (claim_C5_amended 2000).2.1 (by norm_num) (by norm_num)⟩

/-- C6: the raise scenario.  With the history holding y = 0.5 at t = 0 and
y = 0.3 at t = 500 ms (horizontalSpan 0) under the default config
(minWindowMs 400, raiseDeltaY 0.18, raiseHorizontalLimit 0.12), a fresh
detector emits exactly one event, a "raise" with strength
clamp01(0.2/0.18) = 1 and extra = latest.y = 0.3; an identical second call
against the resulting ledger — the raise cooldown (900 ms) not yet elapsed —
emits nothing. -/
theorem claim_C6_raise_scenario :
    (updateVoice euclidLen VoiceConfig.default emptyLedger 1 raiseSamples).2
      = [⟨1, "raise", 1, 3/10⟩]
    ∧ (updateVoice euclidLen VoiceConfig.default
        (updateVoice euclidLen VoiceConfig.default emptyLedger 1 raiseSamples).1
        1 raiseSamples).2 = [] := by
  constructor <;> decide

/-- C7: the sweep scenario.  Camera 0's top row drifts its hottest cell
0 → 1 → 2 → 3 over four samples spanning 900 ms with final row range 0.4
(≥ sweepMinStrength 0.25): the fourth call emits exactly "sweep_lr_top"
with strength clamp01(0.4) = 2/5; with the drift reversed (3 → 2 → 1 → 0)
it emits "sweep_rl_top" instead. -/
theorem claim_C7_sweep_scenario :
    runZone ZoneConfig.default sweepCallsLR
      = [(900, ⟨0, "sweep_lr_top", 2/5, -1, false⟩)]
    ∧ runZone ZoneConfig.default sweepCallsRL
      = [(900, ⟨0, "sweep_rl_top", 2/5, -1, false⟩)] := by
  constructor <;> decide

/-- C9: `updateVoice` with fewer than two samples, or with a window shorter
than `minWindowMs`, is a no-op: it emits no event and returns the cooldown
ledger unchanged. -/
theorem claim_C9_no_op (len3 : Vec3 → ℚ) (cfg : VoiceConfig) (L : Ledger)
    (voiceId : Int) (samples : List Sample)
    (h : samples.length < 2 ∨ voiceWindowDuration cfg samples < cfg.minWindowMs) :
    updateVoice len3 cfg L voiceId samples = (L, []) := by
  unfold updateVoice
  rcases h with h | h
  · rw [if_pos h]
  · by_cases h2 : samples.length < 2
    · rw [if_pos h2]
    · rw [if_neg h2, if_pos h]

/-- Witness for C9: a one-sample call and a two-sample 100 ms window (less
than minWindowMs = 400) are both no-ops. -/
theorem claim_C9_no_op_witness :
    updateVoice euclidLen VoiceConfig.default emptyLedger 0
        [⟨0, Vec3.zero, Vec3.zero, 0, 0⟩] = (emptyLedger, [])
    ∧ updateVoice euclidLen VoiceConfig.default emptyLedger 0
        [⟨0, Vec3.zero, Vec3.zero, 0, 0⟩, ⟨100, Vec3.zero, Vec3.zero, 0, 0⟩]
        = (emptyLedger, []) :=
  ⟨claim_C9_no_op euclidLen VoiceConfig.default emptyLedger 0 _ (Or.inl (by decide)),
   claim_C9_no_op euclidLen VoiceConfig.default emptyLedger 0 _ (Or.inr (by decide))⟩

/-- C10: the last-trigger times for eruption, stillness and per-cell pulses
are initialized to 0 rather than to an "unset" marker, so from a fresh
detector each of these kinds is gated as if an event had fired at
timestamp 0: no eruption is ever emitted before `eruptionCooldownMs`, no
stillness before `stillnessCooldownMs`, and no pulse before
`pulseCooldownMs` — in particular the first event of each kind obeys the
bound, which is the claim. -/
theorem claim_C10_initial_cooldown_gate :
    (∀ (cfg : GlobalConfig) (calls : List GlobalCall),
       ∀ p ∈ runGlobal cfg calls,
         (p.2.type = "eruption" → p.1 ≥ cfg.eruptionCooldownMs)
         ∧ (p.2.type = "stillness" → p.1 ≥ cfg.stillnessCooldownMs))
    ∧ (∀ (cfg : ZoneConfig) (calls : List ZoneCall),
       ∀ p ∈ runZone cfg calls,
         p.2.hasZoneIndex = true → p.1 ≥ cfg.pulseCooldownMs) := by
  constructor
  · intro cfg calls p hp
    have h := runGlobalAux_future cfg calls GlobalState.init p hp
    exact ⟨fun ht => by simpa [GlobalState.init] using h.1 ht,
           fun ht => by simpa [GlobalState.init] using h.2 ht⟩
  · intro cfg calls p hp ht
    have h := runZoneAux_future cfg calls ZoneState.init (fun _ _ _ => rfl) p hp
    rcases h.2 ht with ⟨_, i, _, _, hgate⟩
    simpa [ZoneState.init, PulseTracker.start] using hgate

/-- Witness for C10 at concrete first events: an eruption at t = 5400
(≥ 4500), a stillness at t = 9000 (≥ 6000), a pulse at t = 1200 (≥ 900). -/
theorem claim_C10_initial_cooldown_gate_witness :
    ((5400 : Nat) ≥ GlobalConfig.default.eruptionCooldownMs)
    ∧ ((9000 : Nat) ≥ GlobalConfig.default.stillnessCooldownMs)
    ∧ ((1200 : Nat) ≥ ZoneConfig.default.pulseCooldownMs) :=
  ⟨(claim_C10_initial_cooldown_gate.1 GlobalConfig.default eruptCalls
      (5400, ⟨"eruption", 1/3⟩) (by decide)).1 rfl,
   (claim_C10_initial_cooldown_gate.1 GlobalConfig.default (stillCalls 6000)
      (9000, ⟨"stillness", 76/165⟩) (by decide)).2 rfl,
   claim_C10_initial_cooldown_gate.2 ZoneConfig.default pulseCallsFiring
      (1200, ⟨0, "pulse_zone", 1/13, 0, true⟩) (by decide) rfl⟩

end CrowdOrgan
